import Mathlib

/-!
Verification development for the hannes-os virtual desktop.

Two subsystems are embedded shallowly from the TypeScript source:

* the WindowManager state machine of `src/components/desktop.tsx`
  (`openWindow`, `closeWindow`, `minimizeWindow`, `restoreWindow`,
  `maximizeWindow`, `toggleMaximize`, `activateWindow`,
  `updateWindowPosition`, `updateWindowSize`, `clearMinimizeAnimation`);

* the FileSystemService of `src/lib/file-system/file-system.ts` together
  with its IndexedDB persistence layer.

Modelling conventions:

* `uuidv4()` id generation is replaced by a fresh-id counter (`nextId`);
  only freshness of generated ids matters to the specification.
* `Date.now()` timestamps are passed explicitly as a `now` argument.
* JavaScript string primitives (`split`, `endsWith`, the slash-stripping
  regexes) are modelled on the character-list representation of `String`.
* Opaque presentation payloads (`icon : React.ReactNode`, launch `props`)
  are omitted from `WindowState`; no specified behaviour reads them.
* The IndexedDB `by-parent` index does not index entities whose
  `parentId` is `null`, and querying the index with `null` returns every
  indexed record; `dbEntitiesByParent` reproduces both facts.
* Unbounded recursion in the source (`deleteEntity` over children,
  `getPath` over parents) is modelled with explicit fuel; running out of
  fuel models non-termination of the source and is reported as `none`
  (for `deleteEntity`) or the catch-all `""` (for `getPath`).
-/

/-! ### Window manager: state (desktop.tsx, `WindowState` / `WindowProvider`) -/

/-- `WindowPosition` of desktop.tsx: `{x, y, width, height}`. -/
structure WindowPosition where
  x : Int
  y : Int
  width : Int
  height : Int
deriving DecidableEq, Repr

/-- The transient `minimizeAnimation` hand-off record. -/
structure MinimizeAnimation where
  startPosition : WindowPosition
  targetX : Int
  targetY : Int
deriving DecidableEq, Repr

/-- `WindowState` of desktop.tsx.  `icon` and `props` are opaque
presentation payloads and are omitted; every field the state machine
reads or writes is present. -/
structure WindowState where
  id : Nat
  title : String
  subtitle : Option String
  component : String
  position : WindowPosition
  previousPosition : Option WindowPosition
  isActive : Bool
  isMinimized : Bool
  isMaximized : Bool
  zIndex : Nat
  minimizeAnimation : Option MinimizeAnimation
  thumbnail : Option String
deriving DecidableEq, Repr

/-- The `WindowProvider` state: the window collection plus the
`activeWindowId` and `highestZIndex` React state cells.  `nextId` models
the `uuidv4()` fresh-id source. -/
structure WMState where
  windows : List WindowState
  activeWindowId : Option Nat
  highestZIndex : Nat
  nextId : Nat
deriving DecidableEq, Repr

/-- The empty initial state (`useState([])`, `useState(null)`,
`useState(0)`). -/
def initWM : WMState := { windows := [], activeWindowId := none, highestZIndex := 0, nextId := 0 }

/-- Caller-supplied window spec for `openWindow` (the `Omit<WindowState,
"id" | "isActive" | "isMinimized" | "isMaximized" | "zIndex" |
"thumbnail">` parameter). -/
structure OpenParams where
  title : String
  subtitle : Option String
  component : String
  position : WindowPosition
  previousPosition : Option WindowPosition
  minimizeAnimation : Option MinimizeAnimation
deriving DecidableEq, Repr

/-! ### Window manager: operations

Each per-window update the source performs inside a `map` is factored
into a named function so the proofs can refer to it; the `map` bodies
are otherwise verbatim translations. -/

/-- The `{...window, isActive: false}` update `openWindow` and
`activateWindow` apply to the non-target windows. -/
def deactivate (w : WindowState) : WindowState :=
  { w with isActive := false }

/-- The `{...window, isActive: window.id === topWindow.id}` update of
the promotion passes in `closeWindow` and `minimizeWindow`. -/
def setActiveTo (tid : Nat) (w : WindowState) : WindowState :=
  { w with isActive := w.id == tid }

/-- `openWindow`: allocate `highestZIndex + 1` and a fresh id, deactivate
every existing window, append the new active window.  Returns the new
state and the generated id. -/
def openWindow (p : OpenParams) (s : WMState) : WMState × Nat :=
  let newZIndex := s.highestZIndex + 1
  let id := s.nextId
  let newWindow : WindowState :=
    { id := id
      title := p.title
      subtitle := p.subtitle
      component := p.component
      position := p.position
      previousPosition := p.previousPosition
      isActive := true
      isMinimized := false
      isMaximized := false
      zIndex := newZIndex
      minimizeAnimation := p.minimizeAnimation
      thumbnail := none }
  ({ windows := (s.windows.map deactivate) ++ [newWindow]
     activeWindowId := some id
     highestZIndex := newZIndex
     nextId := s.nextId + 1 }, id)

/-- The `filtered.reduce((highest, current) => current.zIndex >
highest.zIndex ? current : highest, filtered[0])` accumulator. -/
def topFold (l : List WindowState) (a : WindowState) : WindowState :=
  l.foldl (fun highest current => if highest.zIndex < current.zIndex then current else highest) a

/-- `closeWindow`: remove the window; if it was the active one and
windows remain, promote the remaining window with the highest `zIndex`
(minimized or not) to active.  The trailing `windows.length === 1`
check reads the pre-close collection. -/
def closeWindow (id : Nat) (s : WMState) : WMState :=
  let filtered := s.windows.filter fun w => w.id ≠ id
  let s1 :=
    match filtered with
    | [] => { s with windows := filtered }
    | f0 :: _ =>
      if s.activeWindowId = some id then
        let top := topFold filtered f0
        { s with
            windows := filtered.map (setActiveTo top.id)
            activeWindowId := some top.id }
      else
        { s with windows := filtered }
  if s.windows.length = 1 ∧ s.activeWindowId = some id then
    { s1 with activeWindowId := none }
  else s1

/-- The update `minimizeWindow` applies to the target window: minimized,
inactive, thumbnail stored (`thumbnailUrl || null` turns an empty
string into `null`), animation hand-off recorded. -/
def minimizeMark (id : Nat) (targetPosition : Option (Int × Int))
    (thumbnailUrl : Option String) (w : WindowState) : WindowState :=
  if w.id = id then
    { w with
        isMinimized := true
        isActive := false
        thumbnail := match thumbnailUrl with
          | some t => if t = "" then none else some t
          | none => none
        minimizeAnimation := some
          { startPosition := w.position
            targetX := (targetPosition.map Prod.fst).getD w.position.x
            targetY := (targetPosition.map Prod.snd).getD (w.position.y + 500) } }
  else w

/-- `minimizeWindow`: first functional update marks the window minimized
and inactive; the second promotes the next highest non-minimized
window, or clears the active id. -/
def minimizeWindow (id : Nat) (targetPosition : Option (Int × Int))
    (thumbnailUrl : Option String) (s : WMState) : WMState :=
  let windows1 := s.windows.map (minimizeMark id targetPosition thumbnailUrl)
  let visibleWindows := windows1.filter fun w => !w.isMinimized && w.id ≠ id
  match visibleWindows with
  | [] => { s with windows := windows1, activeWindowId := none }
  | v0 :: _ =>
    let top := topFold visibleWindows v0
    { s with
        windows := windows1.map (setActiveTo top.id)
        activeWindowId := some top.id }

/-- The update `clearMinimizeAnimation` applies to the target window. -/
def clearAnimMark (id : Nat) (w : WindowState) : WindowState :=
  if w.id = id then { w with minimizeAnimation := none } else w

/-- `clearMinimizeAnimation`: drop the transient animation record. -/
def clearMinimizeAnimation (id : Nat) (s : WMState) : WMState :=
  { s with windows := s.windows.map (clearAnimMark id) }

/-- The update `activateWindow` applies: the target window becomes
active with the fresh `zIndex`, un-minimized, thumbnail cleared; every
other window is deactivated. -/
def activateMark (id newZIndex : Nat) (w : WindowState) : WindowState :=
  if w.id = id then
    { w with isActive := true, zIndex := newZIndex, isMinimized := false, thumbnail := none }
  else deactivate w

/-- `activateWindow`: allocate a fresh top `zIndex`, mark the window
active and un-minimized and clear its thumbnail, deactivate all others,
record the id as active (even when no window carries it). -/
def activateWindow (id : Nat) (s : WMState) : WMState :=
  let newZIndex := s.highestZIndex + 1
  { windows := s.windows.map (activateMark id newZIndex)
    activeWindowId := some id
    highestZIndex := newZIndex
    nextId := s.nextId }

/-- The un-minimize update of `restoreWindow` and `maximizeWindow`. -/
def restoreMark (id : Nat) (w : WindowState) : WindowState :=
  if w.id = id then
    { w with isMinimized := false, minimizeAnimation := none, thumbnail := none }
  else w

/-- `restoreWindow`: clear the minimized state and transient fields,
then perform `activateWindow`. -/
def restoreWindow (id : Nat) (s : WMState) : WMState :=
  activateWindow id { s with windows := s.windows.map (restoreMark id) }

/-- `maximizeWindow`: un-minimize and clear transient fields, then
`activateWindow`. -/
def maximizeWindow (id : Nat) (s : WMState) : WMState :=
  activateWindow id { s with windows := s.windows.map (restoreMark id) }

/-- The snapshot/restore update of `toggleMaximize`; `vw`/`vh` are the
viewport dimensions read from `globalThis.window` at call time. -/
def toggleMark (id : Nat) (vw vh : Int) (w : WindowState) : WindowState :=
  if w.id = id then
    if w.isMaximized then
      { w with
          isMaximized := false
          position := w.previousPosition.getD w.position
          previousPosition := none }
    else
      { w with
          isMaximized := true
          previousPosition := some w.position
          position := { x := 0, y := 24, width := vw, height := vh - 24 - 60 } }
  else w

/-- `toggleMaximize`. -/
def toggleMaximize (id : Nat) (vw vh : Int) (s : WMState) : WMState :=
  { s with windows := s.windows.map (toggleMark id vw vh) }

/-- The geometry patch of `updateWindowPosition`
(`Partial<WindowPosition>`). -/
def updatePosMark (id : Nat) (px py pw ph : Option Int) (w : WindowState) : WindowState :=
  if w.id = id then
    { w with position :=
        { x := px.getD w.position.x
          y := py.getD w.position.y
          width := pw.getD w.position.width
          height := ph.getD w.position.height } }
  else w

/-- `updateWindowPosition`. -/
def updateWindowPosition (id : Nat) (px py pw ph : Option Int) (s : WMState) : WMState :=
  { s with windows := s.windows.map (updatePosMark id px py pw ph) }

/-- The size update of `updateWindowSize` with the 200×100 floor. -/
def updateSizeMark (id : Nat) (width height : Int) (w : WindowState) : WindowState :=
  if w.id = id then
    { w with position :=
        { w.position with width := max 200 width, height := max 100 height } }
  else w

/-- `updateWindowSize`. -/
def updateWindowSize (id : Nat) (width height : Int) (s : WMState) : WMState :=
  { s with windows := s.windows.map (updateSizeMark id width height) }


/-- One public WindowManager operation together with its arguments. -/
inductive WMOp where
  | openW (p : OpenParams)
  | close (id : Nat)
  | minimize (id : Nat) (targetPosition : Option (Int × Int)) (thumbnailUrl : Option String)
  | restore (id : Nat)
  | maximize (id : Nat)
  | toggleMax (id : Nat) (vw vh : Int)
  | activate (id : Nat)
  | updatePos (id : Nat) (px py pw ph : Option Int)
  | updateSize (id : Nat) (width height : Int)
  | clearMinAnim (id : Nat)
deriving DecidableEq, Repr

/-- Apply one operation to the manager state. -/
def applyOp : WMOp → WMState → WMState
  | .openW p, s => (openWindow p s).1
  | .close id, s => closeWindow id s
  | .minimize id t th, s => minimizeWindow id t th s
  | .restore id, s => restoreWindow id s
  | .maximize id, s => maximizeWindow id s
  | .toggleMax id vw vh, s => toggleMaximize id vw vh s
  | .activate id, s => activateWindow id s
  | .updatePos id px py pw ph, s => updateWindowPosition id px py pw ph s
  | .updateSize id w h, s => updateWindowSize id w h s
  | .clearMinAnim id, s => clearMinimizeAnimation id s

/-- WindowManager states reachable from the empty initial state. -/
inductive WMReach : WMState → Prop where
  | init : WMReach initWM
  | step (s : WMState) (op : WMOp) : WMReach s → WMReach (applyOp op s)

/-! ### File system: data model (`src/lib/file-system/types`, modelled
from their use in file-system.ts) -/

/-- `LinkTargetType`. -/
inductive LinkTargetType where
  | application
  | directory
  | file
  | url
deriving DecidableEq, Repr

/-- The variant part of the `FileSystemEntity` tagged union: the `type`
discriminator together with the variant-specific fields. -/
inductive EntityData where
  | file (content : String) (mimeType : String)
  | directory
  | link (targetType : LinkTargetType) (target : String)
  | application (appId : String)
deriving DecidableEq, Repr

/-- A `FileSystemEntity`.  `metadata` is a JavaScript object modelled as
an association list (first binding of a key wins on lookup). -/
structure Entity where
  id : Nat
  name : String
  parentId : Option Nat
  createdAt : Nat
  modifiedAt : Nat
  metadata : List (String × String)
  data : EntityData
deriving DecidableEq, Repr

/-- Whether the `type` discriminator is `"directory"`. -/
def Entity.isDir (e : Entity) : Bool :=
  match e.data with
  | .directory => true
  | _ => false

/-- The persistent store of `db.ts` (the IndexedDB `files` object store)
plus the service's `rootId` and the fresh-id counter standing in for
`uuidv4()`. -/
structure FsState where
  entities : List Entity
  rootId : Nat
  nextId : Nat
deriving DecidableEq, Repr

/-- `db.getEntity`: primary-key lookup. -/
def dbGetEntity (fs : FsState) (id : Nat) : Option Entity :=
  fs.entities.find? fun e => e.id == id

/-- `db.getEntitiesByParent`: the `by-parent` IndexedDB index.  Records
with a `null` `parentId` are not indexed, and a `null` query key is an
unbounded range returning every indexed record. -/
def dbEntitiesByParent (fs : FsState) (parentId : Option Nat) : List Entity :=
  match parentId with
  | some p => fs.entities.filter fun e => e.parentId == some p
  | none => fs.entities.filter fun e => e.parentId.isSome

/-- `db.saveEntity`: keyed `put`, replacing any record with the same id
and inserting the record otherwise. -/
def dbSaveEntity (fs : FsState) (e : Entity) : FsState :=
  if fs.entities.any fun x => x.id == e.id then
    { fs with entities := fs.entities.map fun x => if x.id == e.id then e else x }
  else
    { fs with entities := fs.entities ++ [e] }

/-- `db.deleteEntity`. -/
def dbDeleteEntity (fs : FsState) (id : Nat) : FsState :=
  { fs with entities := fs.entities.filter fun e => e.id ≠ id }

/-- A `FileSystemOperationResult`: `{success: true, data}` or
`{success: false, error}`. -/
inductive FsRes (α : Type) where
  | ok (data : α)
  | err (error : String)
deriving DecidableEq, Repr

/-- The `data` of a successful result. -/
def FsRes.toOption {α : Type} : FsRes α → Option α
  | .ok a => some a
  | .err _ => none

/-- JavaScript `String.prototype.endsWith`, on the character lists. -/
def jsEndsWith (s suffix : String) : Bool :=
  suffix.data.isSuffixOf s.data

/-- JavaScript `name.endsWith(".lnk") ? name : name + ".lnk"`
normalization used by `createLink` and `updateLink`. -/
def normalizeLnk (name : String) : String :=
  if jsEndsWith name ".lnk" then name else name ++ ".lnk"

/-! ### File system: operations (file-system.ts) -/

/-- `createDirectory(name, parentId)`. -/
def createDirectory (fs : FsState) (name : String) (parentId : Nat) (now : Nat) :
    FsRes Entity × FsState :=
  match dbGetEntity fs parentId with
  | none => (.err "Parent directory not found", fs)
  | some parent =>
    if !parent.isDir then (.err "Parent directory not found", fs)
    else
      let siblings := dbEntitiesByParent fs (some parentId)
      if siblings.any fun e => e.name == name then
        (.err ("A file or directory named \"" ++ name ++ "\" already exists"), fs)
      else
        let directory : Entity :=
          { id := fs.nextId, name := name, parentId := some parentId
            createdAt := now, modifiedAt := now, metadata := [], data := .directory }
        (.ok directory, { dbSaveEntity fs directory with nextId := fs.nextId + 1 })

/-- `createFile(name, parentId, content, mimeType)`. -/
def createFile (fs : FsState) (name : String) (parentId : Nat)
    (content : String) (mimeType : String) (now : Nat) : FsRes Entity × FsState :=
  match dbGetEntity fs parentId with
  | none => (.err "Parent directory not found", fs)
  | some parent =>
    if !parent.isDir then (.err "Parent directory not found", fs)
    else
      let siblings := dbEntitiesByParent fs (some parentId)
      if siblings.any fun e => e.name == name then
        (.err ("A file or directory named \"" ++ name ++ "\" already exists"), fs)
      else
        let file : Entity :=
          { id := fs.nextId, name := name, parentId := some parentId
            createdAt := now, modifiedAt := now, metadata := []
            data := .file content mimeType }
        (.ok file, { dbSaveEntity fs file with nextId := fs.nextId + 1 })

/-- `registerApplication(name, parentId, appId)` (legacy variant; note
that it performs no sibling-collision check). -/
def registerApplication (fs : FsState) (name : String) (parentId : Nat) (appId : String)
    (now : Nat) : FsRes Entity × FsState :=
  match dbGetEntity fs parentId with
  | none => (.err "Parent directory not found", fs)
  | some parent =>
    if !parent.isDir then (.err "Parent directory not found", fs)
    else
      let app : Entity :=
        { id := fs.nextId, name := name, parentId := some parentId
          createdAt := now, modifiedAt := now, metadata := [], data := .application appId }
      (.ok app, { dbSaveEntity fs app with nextId := fs.nextId + 1 })

/-- `createLink(name, parentId, targetType, target)`.  The collision
check inspects the raw `name`; the stored name is `.lnk`-normalized. -/
def createLink (fs : FsState) (name : String) (parentId : Nat)
    (targetType : LinkTargetType) (target : String) (now : Nat) : FsRes Entity × FsState :=
  match dbGetEntity fs parentId with
  | none => (.err "Parent directory not found", fs)
  | some parent =>
    if !parent.isDir then (.err "Parent directory not found", fs)
    else
      let siblings := dbEntitiesByParent fs (some parentId)
      if siblings.any fun e => e.name == name then
        (.err ("A file or directory named \"" ++ name ++ "\" already exists"), fs)
      else
        let link : Entity :=
          { id := fs.nextId, name := normalizeLnk name, parentId := some parentId
            createdAt := now, modifiedAt := now, metadata := []
            data := .link targetType target }
        (.ok link, { dbSaveEntity fs link with nextId := fs.nextId + 1 })

/-- `getEntity(id)` (the service wrapper adds only a catch). -/
def getEntity (fs : FsState) (id : Nat) : Option Entity :=
  dbGetEntity fs id

/-- `updateFileContent(fileId, content)`: replaces the content and bumps
`modifiedAt`. -/
def updateFileContent (fs : FsState) (fileId : Nat) (content : String) (now : Nat) :
    FsRes Unit × FsState :=
  match dbGetEntity fs fileId with
  | none => (.err "File not found", fs)
  | some file =>
    match file.data with
    | .file _ mimeType =>
      let updated := { file with data := .file content mimeType, modifiedAt := now }
      (.ok (), dbSaveEntity fs updated)
    | _ => (.err "File not found", fs)

/-- `renameEntity(id, newName)`: sibling collision check excluding self
(for the root, `entity.parentId` is `null`, so the "siblings" are every
indexed entity), then update the name and `modifiedAt`. -/
def renameEntity (fs : FsState) (entityId : Nat) (newName : String) (now : Nat) :
    FsRes Unit × FsState :=
  match dbGetEntity fs entityId with
  | none => (.err "Entity not found", fs)
  | some entity =>
    let siblings := dbEntitiesByParent fs entity.parentId
    if siblings.any fun e => e.name == newName && e.id ≠ entityId then
      (.err ("A file or directory named \"" ++ newName ++ "\" already exists"), fs)
    else
      let updated := { entity with name := newName, modifiedAt := now }
      (.ok (), dbSaveEntity fs updated)

/-- `moveEntity(id, newParentId)`: destination must be a directory with
no name collision; no cycle check is performed. -/
def moveEntity (fs : FsState) (entityId : Nat) (newParentId : Nat) (now : Nat) :
    FsRes Unit × FsState :=
  match dbGetEntity fs entityId with
  | none => (.err "Entity not found", fs)
  | some entity =>
    match dbGetEntity fs newParentId with
    | none => (.err "Destination directory not found", fs)
    | some newParent =>
      if !newParent.isDir then (.err "Destination directory not found", fs)
      else
        let siblings := dbEntitiesByParent fs (some newParentId)
        if siblings.any fun e => e.name == entity.name then
          (.err ("A file or directory named \"" ++ entity.name ++
            "\" already exists in the destination"), fs)
        else
          let updated := { entity with parentId := some newParentId, modifiedAt := now }
          (.ok (), dbSaveEntity fs updated)

/-- The `{name?, targetType?, target?}` patch of `updateLink`. -/
structure LinkUpdates where
  name : Option String
  targetType : Option LinkTargetType
  target : Option String
deriving DecidableEq, Repr

/-- `updateLink(linkId, updates)`: collision is checked (against the raw
new name, excluding self) only when a name is supplied and differs from
the current one; the stored name is `.lnk`-normalized. -/
def updateLink (fs : FsState) (linkId : Nat) (updates : LinkUpdates) (now : Nat) :
    FsRes Entity × FsState :=
  match getEntity fs linkId with
  | none => (.err "Link not found", fs)
  | some link =>
    match link.data with
    | .link targetType target =>
      let collision :=
        match updates.name with
        | some n =>
          if n ≠ link.name then
            (dbEntitiesByParent fs link.parentId).any fun e => e.name == n && e.id ≠ linkId
          else false
        | none => false
      if collision then
        (.err ("A file or directory named \"" ++ (updates.name.getD "") ++
          "\" already exists"), fs)
      else
        let updated : Entity :=
          { link with
              name := match updates.name with
                | some n => normalizeLnk n
                | none => link.name
              data := .link (updates.targetType.getD targetType) (updates.target.getD target)
              modifiedAt := now }
        (.ok updated, dbSaveEntity fs updated)
    | _ => (.err "Link not found", fs)

/-- The `{...entity.metadata, ...metadataUpdates}` JavaScript object
spread: keys of `old` keep their position (with the patch value when
patched); patch-only keys are appended. -/
def jsMergeMeta (old patch : List (String × String)) : List (String × String) :=
  (old.map fun kv =>
    match patch.lookup kv.1 with
    | some v => (kv.1, v)
    | none => kv) ++
  patch.filter fun kv => (old.lookup kv.1).isNone

/-- `updateEntityMetadata(id, patch)`: shallow metadata merge; no other
field (in particular `modifiedAt`) changes. -/
def updateEntityMetadata (fs : FsState) (entityId : Nat)
    (metadataUpdates : List (String × String)) : FsRes Unit × FsState :=
  match getEntity fs entityId with
  | none => (.err "Entity not found", fs)
  | some entity =>
    let updated := { entity with metadata := jsMergeMeta entity.metadata metadataUpdates }
    (.ok (), dbSaveEntity fs updated)

/-! ### File system: path resolution, delete, getPath -/

/-- JavaScript `path.replace(/^\/+/, '').replace(/\/+$/, '')`: strip
leading and trailing runs of slashes. -/
def stripSlashes (path : String) : String :=
  ⟨((path.data.dropWhile fun c => c == '/').reverse.dropWhile fun c => c == '/').reverse⟩

/-- JavaScript `String.prototype.split('/')` (single-character
separator), on the character lists. -/
def jsSplit (s : String) : List String :=
  (s.data.splitOn '/').map fun l => ⟨l⟩

/-- The segment walk of `getEntityByPath`: look the segment up among the
children of the current directory by exact name (skipping empty
segments); a non-directory match must be the final segment; when the
segments are exhausted, fetch the current directory id. -/
def walkPath (fs : FsState) : Nat → List String → Option Entity
  | currentEntityId, [] => getEntity fs currentEntityId
  | currentEntityId, part :: rest =>
    if part = "" then walkPath fs currentEntityId rest
    else
      match (dbEntitiesByParent fs (some currentEntityId)).find? fun child =>
          child.name == part with
      | none => none
      | some foundChild =>
        if foundChild.isDir then walkPath fs foundChild.id rest
        else if rest ≠ [] then none
        else some foundChild

/-- `getEntityByPath(path)` (of an initialized service).  The source's
`null` and `undefined` outcomes are both modelled as `none`. -/
def getEntityByPath (fs : FsState) (path : String) : Option Entity :=
  if path = "/" then dbGetEntity fs fs.rootId
  else walkPath fs fs.rootId (jsSplit (stripSlashes path))

/-- `listDirectory(dirId)`. -/
def listDirectory (fs : FsState) (dirId : Nat) : List Entity :=
  dbEntitiesByParent fs (some dirId)

/-- `deleteEntity(id)` with explicit fuel: a directory recursively
deletes the children fetched up front (their results are ignored, as in
the source), then removes itself.  `none` models the source recursing
forever (fuel is spent per nesting level only). -/
def deleteEntityFuel : Nat → FsState → Nat → Option (FsRes Unit × FsState)
  | 0, _, _ => none
  | fuel + 1, fs, entityId =>
    match dbGetEntity fs entityId with
    | none => some (.err "Entity not found", fs)
    | some entity =>
      let afterChildren : Option FsState :=
        if entity.isDir then
          (dbEntitiesByParent fs (some entityId)).foldlM
            (fun acc child => (deleteEntityFuel fuel acc child.id).map Prod.snd) fs
        else some fs
      match afterChildren with
      | none => none
      | some fs1 => some (.ok (), dbDeleteEntity fs1 entityId)

/-- `deleteEntity(id)` with the default fuel `entities.length + 1`,
which suffices for every acyclic state (nesting is bounded by the entity
count); a fuel-out (only possible on a `parentId` cycle) leaves the
state unchanged, standing for the hung call. -/
def deleteEntity (fs : FsState) (entityId : Nat) : FsRes Unit × FsState :=
  (deleteEntityFuel (fs.entities.length + 1) fs entityId).getD
    (.err "deleteEntity does not terminate", fs)

/-- `getPath(entityId)` with explicit fuel: walk `parentId` links to the
root, building the slash-delimited path; a missing entity yields `""`
and the root yields `"/"`.  Fuel-out returns the catch-all `""`. -/
def getPathFuel (fs : FsState) : Nat → Nat → String
  | 0, _ => ""
  | fuel + 1, entityId =>
    match dbGetEntity fs entityId with
    | none => ""
    | some entity =>
      match entity.parentId with
      | none => "/"
      | some parentId =>
        let parentPath := getPathFuel fs fuel parentId
        (if parentPath = "/" then "" else parentPath) ++ "/" ++ entity.name

/-- `getPath(entityId)` with the default fuel (ample for every acyclic
state). -/
def getPath (fs : FsState) (entityId : Nat) : String :=
  getPathFuel fs (fs.entities.length + 1) entityId

/-! ### File system: initialization (`createNewFileSystem`) -/

/-- The root directory created by `createNewFileSystem` (uuid modelled
as id 0, `Date.now()` as 0). -/
def rootEntity : Entity :=
  { id := 0, name := "/", parentId := none, createdAt := 0, modifiedAt := 0
    metadata := [], data := .directory }

/-- The state holding only the root directory — the state from which
`createNewFileSystem` issues its `createDirectory`/`createLink`/
`createFile` calls (and its catch-branch fallback). -/
def fs0 : FsState := { entities := [rootEntity], rootId := 0, nextId := 1 }

/-- The happy path of `createNewFileSystem`: the default tree, one
application link per registered app in `/Applications` and on the
Desktop, and three sample files.  `apps` is `DEFAULT_APPS` as
(name, id) pairs.  `none` models the `catch` branch being taken. -/
def buildDefaultTree (apps : List (String × String)) : Option FsState := do
  let (rUsers, fsA) := createDirectory fs0 "Users" 0 0
  let users ← rUsers.toOption
  let (rApps, fsB) := createDirectory fsA "Applications" 0 0
  let appsDir ← rApps.toOption
  let fsC := (createDirectory fsB "System" 0 0).2
  let (rUser, fsD) := createDirectory fsC "User" users.id 0
  let user ← rUser.toOption
  let (rDocs, fsE) := createDirectory fsD "Documents" user.id 0
  let documents ← rDocs.toOption
  let (rDesk, fsF) := createDirectory fsE "Desktop" user.id 0
  let desktop ← rDesk.toOption
  let fsG := (createDirectory fsF "Downloads" user.id 0).2
  let fsH := (createDirectory fsG "Pictures" user.id 0).2
  let fsI := apps.foldl
    (fun acc app => (createLink acc app.1 appsDir.id .application app.2 0).2) fsH
  let fsJ := apps.foldl
    (fun acc app => (createLink acc app.1 desktop.id .application app.2 0).2) fsI
  let fsK := (createFile fsJ "Welcome.txt" documents.id
    "Welcome to your virtual desktop!\n\nThis is a sample text file that you can edit and save."
    "text/plain" 0).2
  let fsL := (createFile fsK "Notes.txt" documents.id "Your notes go here..." "text/plain" 0).2
  let fsM := (createFile fsL "Todo.txt" documents.id
    "- Create virtual file system\n- Implement file editing\n- Add more apps" "text/plain" 0).2
  some fsM

/-- `createNewFileSystem`: the default tree, or the minimal root-only
state when creation fails (the `catch` branch). -/
def createNewFileSystem (apps : List (String × String)) : FsState :=
  (buildDefaultTree apps).getD fs0

/-- `DEFAULT_APPS` of `src/components/app-context.tsx` as (name, id)
pairs. -/
def defaultApps : List (String × String) :=
  [("File Manager", "filemanager"), ("TextEdit", "textedit"),
   ("Browser", "browser"), ("System Preferences", "systempreferences")]

/-- The file system produced by a fresh `initialize()` (no persisted
state). -/
def initFs : FsState := createNewFileSystem defaultApps

/-! ### Invariants and reachability predicates -/

/-- The number of windows with `isActive = true`. -/
def countActive (l : List WindowState) : Nat :=
  l.countP fun w => w.isActive

/-- Structural invariant of WindowManager states: window ids are
distinct and below the fresh-id counter, `zIndex` values are distinct
and bounded by `highestZIndex`, and at most one window is active. -/
structure WMInv (s : WMState) : Prop where
  nodupIds : (s.windows.map fun w => w.id).Nodup
  idsLt : ∀ w ∈ s.windows, w.id < s.nextId
  zLe : ∀ w ∈ s.windows, w.zIndex ≤ s.highestZIndex
  nodupZ : (s.windows.map fun w => w.zIndex).Nodup
  activeLe : countActive s.windows ≤ 1

/-- File-system states reachable from the root-only state by public
`FileSystemService` operations that never pass the root id to
`deleteEntity`, `renameEntity` or `moveEntity`.  `initialize()` builds
the default tree through these same operations, so every initialized
file system (and every state reached from one under the stated
restriction) satisfies this predicate. -/
inductive RootSafeReach : FsState → Prop where
  | base : RootSafeReach fs0
  | mkdir (fs : FsState) (name : String) (parentId now : Nat) :
      RootSafeReach fs → RootSafeReach (createDirectory fs name parentId now).2
  | mkfile (fs : FsState) (name : String) (parentId : Nat) (content mimeType : String)
      (now : Nat) :
      RootSafeReach fs → RootSafeReach (createFile fs name parentId content mimeType now).2
  | mkapp (fs : FsState) (name : String) (parentId : Nat) (appId : String) (now : Nat) :
      RootSafeReach fs → RootSafeReach (registerApplication fs name parentId appId now).2
  | mklink (fs : FsState) (name : String) (parentId : Nat) (targetType : LinkTargetType)
      (target : String) (now : Nat) :
      RootSafeReach fs → RootSafeReach (createLink fs name parentId targetType target now).2
  | writeFile (fs : FsState) (fileId : Nat) (content : String) (now : Nat) :
      RootSafeReach fs → RootSafeReach (updateFileContent fs fileId content now).2
  | rename (fs : FsState) (entityId : Nat) (newName : String) (now : Nat) :
      entityId ≠ fs.rootId →
      RootSafeReach fs → RootSafeReach (renameEntity fs entityId newName now).2
  | move (fs : FsState) (entityId newParentId now : Nat) :
      entityId ≠ fs.rootId →
      RootSafeReach fs → RootSafeReach (moveEntity fs entityId newParentId now).2
  | delete (fs : FsState) (entityId : Nat) :
      entityId ≠ fs.rootId →
      RootSafeReach fs → RootSafeReach (deleteEntity fs entityId).2
  | relink (fs : FsState) (linkId : Nat) (updates : LinkUpdates) (now : Nat) :
      RootSafeReach fs → RootSafeReach (updateLink fs linkId updates now).2
  | meta (fs : FsState) (entityId : Nat) (patch : List (String × String)) :
      RootSafeReach fs → RootSafeReach (updateEntityMetadata fs entityId patch).2

/-- Invariant carried along `RootSafeReach`: distinct ids below the
fresh-id counter, a well-formed root entry, and the root as the only
entity with a `null` parent. -/
structure RootInv (fs : FsState) : Prop where
  nodupIds : (fs.entities.map fun e => e.id).Nodup
  idsLt : ∀ e ∈ fs.entities, e.id < fs.nextId
  rootOk : ∃ r, dbGetEntity fs fs.rootId = some r ∧ r.name = "/" ∧ r.parentId = none ∧
    r.data = .directory
  uniqNone : ∀ e ∈ fs.entities, e.parentId = none → e.id = fs.rootId

/-- File-system states reachable from the root-only state through the
six name-affecting operations of the sibling-uniqueness claim
(`initialize()` builds its tree through three of them). -/
inductive SixReach : FsState → Prop where
  | base : SixReach fs0
  | mkdir (fs : FsState) (name : String) (parentId now : Nat) :
      SixReach fs → SixReach (createDirectory fs name parentId now).2
  | mkfile (fs : FsState) (name : String) (parentId : Nat) (content mimeType : String)
      (now : Nat) :
      SixReach fs → SixReach (createFile fs name parentId content mimeType now).2
  | mklink (fs : FsState) (name : String) (parentId : Nat) (targetType : LinkTargetType)
      (target : String) (now : Nat) :
      SixReach fs → SixReach (createLink fs name parentId targetType target now).2
  | rename (fs : FsState) (entityId : Nat) (newName : String) (now : Nat) :
      SixReach fs → SixReach (renameEntity fs entityId newName now).2
  | relink (fs : FsState) (linkId : Nat) (updates : LinkUpdates) (now : Nat) :
      SixReach fs → SixReach (updateLink fs linkId updates now).2
  | move (fs : FsState) (entityId newParentId now : Nat) :
      SixReach fs → SixReach (moveEntity fs entityId newParentId now).2

/-- Invariant carried along `SixReach`: distinct ids below the fresh-id
counter, at most one entity with a `null` parent, and any two distinct
same-parent entities sharing a name carry a `.lnk` name (the only
collisions the service lets through are `.lnk`-normalized link
names). -/
structure UniqInv (fs : FsState) : Prop where
  nodupIds : (fs.entities.map fun e => e.id).Nodup
  idsLt : ∀ e ∈ fs.entities, e.id < fs.nextId
  uniqNone : ∀ e1 ∈ fs.entities, ∀ e2 ∈ fs.entities,
    e1.parentId = none → e2.parentId = none → e1.id = e2.id
  dupLnk : ∀ e1 ∈ fs.entities, ∀ e2 ∈ fs.entities,
    e1.id ≠ e2.id → e1.parentId = e2.parentId → e1.name = e2.name →
    jsEndsWith e1.name ".lnk" = true

/-- The path string `getPath` builds for a chain of names below the
root, written exactly as the source accumulates it. -/
def pathOf (ns : List String) : String :=
  ns.foldl (fun parentPath name => (if parentPath = "/" then "" else parentPath) ++ "/" ++ name)
    "/"

/-- An entity chain from the root as the path round-trip needs it:
`GoodChain fs e ns` says `e` is stored under its own id and is reached
from the root by the names `ns`, every chain parent is a directory,
every name on the chain is nonempty and slash-free, and each chain
entity is the child its name actually resolves to among its parent's
children (`find?` by exact name). -/
inductive GoodChain (fs : FsState) : Entity → List String → Prop where
  | root (r : Entity) :
      dbGetEntity fs fs.rootId = some r → r.parentId = none → r.data = .directory →
      GoodChain fs r []
  | step (p e : Entity) (ns : List String) :
      GoodChain fs p ns → p.data = .directory →
      dbGetEntity fs e.id = some e → e.parentId = some p.id →
      e.name ≠ "" → '/' ∉ e.name.data →
      ((dbEntitiesByParent fs (some p.id)).find? fun child => child.name == e.name) = some e →
      GoodChain fs e (ns ++ [e.name])

/-! ### Concrete scenario states (used by counterexamples and
witnesses) -/

/-- A 400×300 window geometry at the origin. -/
def demoPos : WindowPosition := { x := 0, y := 0, width := 400, height := 300 }

/-- A minimal `openWindow` spec. -/
def demoParams : OpenParams :=
  { title := "A", subtitle := none, component := "Notepad", position := demoPos
    previousPosition := none, minimizeAnimation := none }

/-- One window open (id 0, active, zIndex 1). -/
def wm1 : WMState := (openWindow demoParams initWM).1

/-- Two windows open (id 1 active, zIndex 2). -/
def wm2 : WMState := (openWindow demoParams wm1).1

/-- After `minimizeWindow(1)`: window 1 minimized, window 0 active. -/
def wm3 : WMState := minimizeWindow 1 none none wm2

/-- Initialized file system plus a file named `"A.lnk"` in the root. -/
def fsCollide : FsState := (createFile initFs "A.lnk" 0 "" "text/plain" 0).2

/-- Initialized file system plus a file with the empty name in the
root (`createFile` performs no name validation). -/
def fsEmptyName : FsState := (createFile initFs "" 0 "" "text/plain" 0).2

/-- Initialized file system plus `/A` (id 20). -/
def fsCyc1 : FsState := (createDirectory initFs "A" 0 0).2

/-- ... plus `/A/B` (id 21). -/
def fsCyc2 : FsState := (createDirectory fsCyc1 "B" 20 0).2

/-- ... after `moveEntity(A, B)`: directories 20 and 21 are each
other's parents (`moveEntity` performs no cycle check). -/
def fsCyc3 : FsState := (moveEntity fsCyc2 20 21 0).2

/-- Root-only state plus a directory `Docs` (id 1). -/
def fsDocs : FsState := (createDirectory fs0 "Docs" 0 0).2

/-- The `Docs` entity of `fsDocs`. -/
def docsEntity : Entity :=
  { id := 1, name := "Docs", parentId := some 0, createdAt := 0, modifiedAt := 0
    metadata := [], data := .directory }

/-- The directory `/A` (id 20) after `moveEntity(A, B)` in `fsCyc3`. -/
def cycA : Entity :=
  { id := 20, name := "A", parentId := some 21, createdAt := 0, modifiedAt := 0
    metadata := [], data := .directory }

/-- The directory `/A/B` (id 21) in `fsCyc3`. -/
def cycB : Entity :=
  { id := 21, name := "B", parentId := some 20, createdAt := 0, modifiedAt := 0
    metadata := [], data := .directory }

/-! ### Window manager: helper lemmas -/

theorem topFold_cons (x : WindowState) (t : List WindowState) (a : WindowState) :
    topFold (x :: t) a = topFold t (if a.zIndex < x.zIndex then x else a) := by
  simp [topFold]

theorem topFold_eq_or_mem : ∀ (l : List WindowState) (a : WindowState),
    topFold l a = a ∨ topFold l a ∈ l
  | [], a => .inl rfl
  | x :: t, a => by
    rw [topFold_cons]
    rcases topFold_eq_or_mem t (if a.zIndex < x.zIndex then x else a) with h | h
    · rw [h]
      by_cases hz : a.zIndex < x.zIndex
      · simp [hz]
      · simp [hz]
    · exact .inr (List.mem_cons_of_mem x h)

theorem topFold_z_init : ∀ (l : List WindowState) (a : WindowState),
    a.zIndex ≤ (topFold l a).zIndex
  | [], _ => le_rfl
  | x :: t, a => by
    rw [topFold_cons]
    refine le_trans ?_ (topFold_z_init t _)
    by_cases hz : a.zIndex < x.zIndex
    · simp [hz]; omega
    · simp [hz]

theorem topFold_z_mem : ∀ (l : List WindowState) (a : WindowState),
    ∀ c ∈ l, c.zIndex ≤ (topFold l a).zIndex
  | [], _, c, hc => absurd hc (List.not_mem_nil c)
  | x :: t, a, c, hc => by
    rw [topFold_cons]
    rcases List.mem_cons.mp hc with rfl | hct
    · refine le_trans ?_ (topFold_z_init t _)
      by_cases hz : a.zIndex < c.zIndex
      · simp [hz]
      · simp [hz]; omega
    · exact topFold_z_mem t _ c hct

theorem map_field_id (f : WindowState → WindowState) (h : ∀ w, (f w).id = w.id)
    (l : List WindowState) : (l.map f).map (fun w => w.id) = l.map fun w => w.id := by
  rw [List.map_map]
  exact List.map_congr_left fun a _ => h a

theorem map_field_z (f : WindowState → WindowState) (h : ∀ w, (f w).zIndex = w.zIndex)
    (l : List WindowState) : (l.map f).map (fun w => w.zIndex) = l.map fun w => w.zIndex := by
  rw [List.map_map]
  exact List.map_congr_left fun a _ => h a

theorem countActive_map_le_one {f : WindowState → WindowState} (tid : Nat)
    (l : List WindowState) (hnd : (l.map fun w => w.id).Nodup)
    (h : ∀ w, (f w).isActive = true → w.id = tid) :
    countActive (l.map f) ≤ 1 := by
  rw [countActive, List.countP_map]
  have step1 : l.countP ((fun w => w.isActive) ∘ f) ≤ l.countP fun w => w.id == tid :=
    List.countP_mono_left fun x _ hx => by
      simpa using h x (by simpa using hx)
  refine le_trans step1 ?_
  have step2 : (l.countP fun w => w.id == tid) = List.count tid (l.map fun w => w.id) := by
    rw [List.count_eq_countP, List.countP_map]
    rfl
  rw [step2]
  exact List.nodup_iff_count_le_one.mp hnd tid

theorem countActive_map_le {f : WindowState → WindowState}
    (h : ∀ w, (f w).isActive = true → w.isActive = true) (l : List WindowState) :
    countActive (l.map f) ≤ countActive l := by
  rw [countActive, countActive, List.countP_map]
  exact List.countP_mono_left fun x _ hx => h x (by simpa using hx)

theorem nodup_z_update (l : List WindowState) (tid hz : Nat)
    (hnd : (l.map fun w => w.id).Nodup) (hndz : (l.map fun w => w.zIndex).Nodup)
    (hle : ∀ w ∈ l, w.zIndex ≤ hz) :
    (l.map fun w => if w.id = tid then hz + 1 else w.zIndex).Nodup := by
  induction l with
  | nil => simp
  | cons x t ih =>
    simp only [List.map_cons, List.nodup_cons] at hnd hndz ⊢
    obtain ⟨hxid, htid⟩ := hnd
    obtain ⟨hxz, htz⟩ := hndz
    refine ⟨?_, ih htid htz fun w hw => hle w (List.mem_cons_of_mem x hw)⟩
    intro hmem
    obtain ⟨v, hv, hveq⟩ := List.mem_map.mp hmem
    by_cases hid : x.id = tid
    · rw [if_pos hid] at hveq
      by_cases hvid : v.id = tid
      · exact hxid (hid ▸ hvid ▸ List.mem_map_of_mem (fun w => w.id) hv)
      · rw [if_neg hvid] at hveq
        have := hle v (List.mem_cons_of_mem x hv)
        omega
    · rw [if_neg hid] at hveq
      by_cases hvid : v.id = tid
      · rw [if_pos hvid] at hveq
        have := hle x (List.mem_cons_self x t)
        omega
      · rw [if_neg hvid] at hveq
        exact hxz (hveq ▸ List.mem_map_of_mem (fun w => w.zIndex) hv)

/-! ### Window manager: invariant preservation -/

theorem wmInv_activeSet (s : WMState) (a : Option Nat) (h : WMInv s) :
    WMInv { s with activeWindowId := a } :=
  ⟨h.nodupIds, h.idsLt, h.zLe, h.nodupZ, h.activeLe⟩

theorem wmInv_sub (s : WMState) (l : List WindowState) (h : WMInv s)
    (hsub : l.Sublist s.windows) : WMInv { s with windows := l } := by
  refine ⟨(h.nodupIds).sublist (hsub.map _), ?_, ?_, (h.nodupZ).sublist (hsub.map _), ?_⟩
  · exact fun w hw => h.idsLt w (hsub.mem hw)
  · exact fun w hw => h.zLe w (hsub.mem hw)
  · exact le_trans (hsub.countP_le _) h.activeLe

theorem wmInv_map (s : WMState) (f : WindowState → WindowState)
    (hid : ∀ w, (f w).id = w.id) (hz : ∀ w, (f w).zIndex = w.zIndex) (h : WMInv s)
    (hcount : countActive (s.windows.map f) ≤ 1) :
    WMInv { s with windows := s.windows.map f } := by
  refine ⟨?_, ?_, ?_, ?_, hcount⟩
  · show ((s.windows.map f).map fun w => w.id).Nodup
    rw [map_field_id f hid]
    exact h.nodupIds
  · intro w hw
    obtain ⟨v, hv, rfl⟩ := List.mem_map.mp hw
    rw [hid]; exact h.idsLt v hv
  · intro w hw
    obtain ⟨v, hv, rfl⟩ := List.mem_map.mp hw
    rw [hz]; exact h.zLe v hv
  · show ((s.windows.map f).map fun w => w.zIndex).Nodup
    rw [map_field_z f hz]
    exact h.nodupZ

theorem wmInv_map_simple (s : WMState) (f : WindowState → WindowState)
    (hid : ∀ w, (f w).id = w.id) (hz : ∀ w, (f w).zIndex = w.zIndex)
    (hact : ∀ w, (f w).isActive = true → w.isActive = true) (h : WMInv s) :
    WMInv { s with windows := s.windows.map f } :=
  wmInv_map s f hid hz h (le_trans (countActive_map_le hact s.windows) h.activeLe)

theorem wmInv_setActiveIffId (s : WMState) (tid : Nat) (h : WMInv s) :
    WMInv { s with windows := s.windows.map fun w => { w with isActive := w.id == tid } } :=
  wmInv_map s _ (fun _ => rfl) (fun _ => rfl) h
    (countActive_map_le_one tid s.windows h.nodupIds fun w hw => by simpa using hw)

theorem wmInv_cast (s s' : WMState) (h : WMInv s) (hw : s.windows = s'.windows)
    (hz : s.highestZIndex = s'.highestZIndex) (hn : s.nextId = s'.nextId) :
    WMInv s' := by
  refine ⟨?_, ?_, ?_, ?_, ?_⟩
  · rw [← hw]; exact h.nodupIds
  · rw [← hw, ← hn]; exact h.idsLt
  · rw [← hw, ← hz]; exact h.zLe
  · rw [← hw]; exact h.nodupZ
  · rw [← hw]; exact h.activeLe

theorem wmInv_setActiveTo (s : WMState) (tid : Nat) (h : WMInv s) :
    WMInv { s with windows := s.windows.map (setActiveTo tid) } :=
  wmInv_map s (setActiveTo tid) (fun _ => rfl) (fun _ => rfl) h
    (countActive_map_le_one tid s.windows h.nodupIds fun w hw => by
      simpa [setActiveTo] using hw)

theorem wmInv_open (p : OpenParams) (s : WMState) (h : WMInv s) :
    WMInv (openWindow p s).1 := by
  have hdid := map_field_id deactivate (fun _ => rfl) s.windows
  have hdz := map_field_z deactivate (fun _ => rfl) s.windows
  refine ⟨?_, ?_, ?_, ?_, ?_⟩
  · simp only [openWindow]
    rw [List.map_append, hdid, List.nodup_append]
    refine ⟨h.nodupIds, List.nodup_singleton _, ?_⟩
    intro a ha hb
    simp only [List.map_cons, List.map_nil, List.mem_singleton] at hb
    obtain ⟨v, hv, rfl⟩ := List.mem_map.mp ha
    exact absurd hb (Nat.ne_of_lt (h.idsLt v hv))
  · intro w hw
    simp only [openWindow, List.mem_append, List.mem_map, List.mem_singleton] at hw
    rcases hw with ⟨v, hv, rfl⟩ | rfl
    · exact Nat.lt_succ_of_lt (h.idsLt v hv)
    · exact Nat.lt_succ_self _
  · intro w hw
    simp only [openWindow, List.mem_append, List.mem_map, List.mem_singleton] at hw
    rcases hw with ⟨v, hv, rfl⟩ | rfl
    · exact Nat.le_succ_of_le (h.zLe v hv)
    · exact le_rfl
  · simp only [openWindow]
    rw [List.map_append, hdz, List.nodup_append]
    refine ⟨h.nodupZ, List.nodup_singleton _, ?_⟩
    intro a ha hb
    simp only [List.map_cons, List.map_nil, List.mem_singleton] at hb
    obtain ⟨v, hv, rfl⟩ := List.mem_map.mp ha
    have := h.zLe v hv
    omega
  · simp only [openWindow, countActive, List.countP_append]
    have h0 : (s.windows.map deactivate).countP (fun w => w.isActive) = 0 := by
      rw [List.countP_map]
      simp [List.countP_eq_zero, deactivate, Function.comp]
    rw [h0]
    simp [List.countP_cons]

theorem wmInv_activate (id : Nat) (s : WMState) (h : WMInv s) :
    WMInv (activateWindow id s) := by
  have hid : ∀ w, (activateMark id (s.highestZIndex + 1) w).id = w.id := by
    intro w
    by_cases hw : w.id = id <;> simp [activateMark, deactivate, hw]
  refine ⟨?_, ?_, ?_, ?_, ?_⟩
  · simp only [activateWindow]
    rw [map_field_id _ hid]
    exact h.nodupIds
  · intro w hw
    simp only [activateWindow, List.mem_map] at hw
    obtain ⟨v, hv, rfl⟩ := hw
    rw [hid]
    exact h.idsLt v hv
  · simp only [activateWindow]
    intro w hw
    simp only [List.mem_map] at hw
    obtain ⟨v, hv, rfl⟩ := hw
    by_cases hv' : v.id = id
    · simp [activateMark, hv']
    · simpa [activateMark, deactivate, hv'] using Nat.le_succ_of_le (h.zLe v hv)
  · simp only [activateWindow]
    have hmz : ((s.windows.map (activateMark id (s.highestZIndex + 1))).map
        fun w => w.zIndex) =
        s.windows.map fun w => if w.id = id then s.highestZIndex + 1 else w.zIndex := by
      rw [List.map_map]
      refine List.map_congr_left fun v _ => ?_
      by_cases hv' : v.id = id <;> simp [activateMark, deactivate, Function.comp, hv']
    rw [hmz]
    exact nodup_z_update s.windows id s.highestZIndex h.nodupIds h.nodupZ h.zLe
  · refine countActive_map_le_one id s.windows h.nodupIds fun w hw => ?_
    by_cases hv' : w.id = id
    · exact hv'
    · simp [activateMark, deactivate, hv'] at hw

theorem wmInv_close (id : Nat) (s : WMState) (h : WMInv s) :
    WMInv (closeWindow id s) := by
  have hsub : (s.windows.filter fun w => w.id ≠ id).Sublist s.windows :=
    List.filter_sublist s.windows
  have hbase : WMInv { s with windows := s.windows.filter fun w => w.id ≠ id } :=
    wmInv_sub s _ h hsub
  unfold closeWindow
  dsimp only
  split
  · split
    · exact wmInv_cast _ _ hbase rfl rfl rfl
    · next f0 t heq =>
      split
      · rw [heq]
        exact wmInv_cast _ _
          (wmInv_setActiveTo { s with windows := f0 :: t }
            (topFold (f0 :: t) f0).id (heq ▸ hbase)) rfl rfl rfl
      · exact wmInv_cast _ _ hbase rfl rfl rfl
  · split
    · exact hbase
    · next f0 t heq =>
      split
      · rw [heq]
        exact wmInv_cast _ _
          (wmInv_setActiveTo { s with windows := f0 :: t }
            (topFold (f0 :: t) f0).id (heq ▸ hbase)) rfl rfl rfl
      · exact heq ▸ hbase

theorem wmInv_minimize (id : Nat) (t : Option (Int × Int)) (th : Option String)
    (s : WMState) (h : WMInv s) : WMInv (minimizeWindow id t th s) := by
  have hbase : WMInv { s with windows := s.windows.map (minimizeMark id t th) } := by
    refine wmInv_map_simple s _ ?_ ?_ ?_ h
    · intro w; by_cases hw : w.id = id <;> simp [minimizeMark, hw]
    · intro w; by_cases hw : w.id = id <;> simp [minimizeMark, hw]
    · intro w; by_cases hw : w.id = id <;> simp [minimizeMark, hw]
  unfold minimizeWindow
  dsimp only
  split
  · exact wmInv_cast _ _ hbase rfl rfl rfl
  · next v0 t2 heq =>
    rw [heq]
    exact wmInv_cast _ _
      (wmInv_setActiveTo { s with windows := s.windows.map (minimizeMark id t th) }
        (topFold (v0 :: t2) v0).id hbase) rfl rfl rfl

theorem wmInv_restoreMark (id : Nat) (s : WMState) (h : WMInv s) :
    WMInv { s with windows := s.windows.map (restoreMark id) } := by
  refine wmInv_map_simple s _ ?_ ?_ ?_ h
  · intro w; by_cases hw : w.id = id <;> simp [restoreMark, hw]
  · intro w; by_cases hw : w.id = id <;> simp [restoreMark, hw]
  · intro w; by_cases hw : w.id = id <;> simp [restoreMark, hw]

theorem wmInv_restore (id : Nat) (s : WMState) (h : WMInv s) :
    WMInv (restoreWindow id s) :=
  wmInv_activate id _ (wmInv_restoreMark id s h)

theorem wmInv_maximize (id : Nat) (s : WMState) (h : WMInv s) :
    WMInv (maximizeWindow id s) :=
  wmInv_activate id _ (wmInv_restoreMark id s h)

theorem wmInv_toggleMax (id : Nat) (vw vh : Int) (s : WMState) (h : WMInv s) :
    WMInv (toggleMaximize id vw vh s) := by
  refine wmInv_map_simple s _ ?_ ?_ ?_ h
  · intro w; by_cases hw : w.id = id <;> by_cases hm : w.isMaximized <;>
      simp [toggleMark, hw, hm]
  · intro w; by_cases hw : w.id = id <;> by_cases hm : w.isMaximized <;>
      simp [toggleMark, hw, hm]
  · intro w; by_cases hw : w.id = id <;> by_cases hm : w.isMaximized <;>
      simp [toggleMark, hw, hm]

theorem wmInv_updatePos (id : Nat) (px py pw ph : Option Int) (s : WMState) (h : WMInv s) :
    WMInv (updateWindowPosition id px py pw ph s) := by
  refine wmInv_map_simple s _ ?_ ?_ ?_ h
  · intro w; by_cases hw : w.id = id <;> simp [updatePosMark, hw]
  · intro w; by_cases hw : w.id = id <;> simp [updatePosMark, hw]
  · intro w; by_cases hw : w.id = id <;> simp [updatePosMark, hw]

theorem wmInv_updateSize (id : Nat) (width height : Int) (s : WMState) (h : WMInv s) :
    WMInv (updateWindowSize id width height s) := by
  refine wmInv_map_simple s _ ?_ ?_ ?_ h
  · intro w; by_cases hw : w.id = id <;> simp [updateSizeMark, hw]
  · intro w; by_cases hw : w.id = id <;> simp [updateSizeMark, hw]
  · intro w; by_cases hw : w.id = id <;> simp [updateSizeMark, hw]

theorem wmInv_clearMinAnim (id : Nat) (s : WMState) (h : WMInv s) :
    WMInv (clearMinimizeAnimation id s) := by
  refine wmInv_map_simple s _ ?_ ?_ ?_ h
  · intro w; by_cases hw : w.id = id <;> simp [clearAnimMark, hw]
  · intro w; by_cases hw : w.id = id <;> simp [clearAnimMark, hw]
  · intro w; by_cases hw : w.id = id <;> simp [clearAnimMark, hw]

theorem wmInv_applyOp (op : WMOp) (s : WMState) (h : WMInv s) : WMInv (applyOp op s) := by
  cases op with
  | openW p => exact wmInv_open p s h
  | close id => exact wmInv_close id s h
  | minimize id t th => exact wmInv_minimize id t th s h
  | restore id => exact wmInv_restore id s h
  | maximize id => exact wmInv_maximize id s h
  | toggleMax id vw vh => exact wmInv_toggleMax id vw vh s h
  | activate id => exact wmInv_activate id s h
  | updatePos id px py pw ph => exact wmInv_updatePos id px py pw ph s h
  | updateSize id w2 h2 => exact wmInv_updateSize id w2 h2 s h
  | clearMinAnim id => exact wmInv_clearMinAnim id s h

theorem wmInv_init : WMInv initWM := by
  refine ⟨?_, ?_, ?_, ?_, ?_⟩ <;> simp [initWM, countActive]

theorem wmInv_reach {s : WMState} (h : WMReach s) : WMInv s := by
  induction h with
  | init => exact wmInv_init
  | step s op _ ih => exact wmInv_applyOp op s ih

/-! ### Window manager: further lemmas -/

theorem hz_mono (op : WMOp) (s : WMState) :
    s.highestZIndex ≤ (applyOp op s).highestZIndex := by
  cases op with
  | openW p => exact Nat.le_succ _
  | close id =>
    unfold applyOp closeWindow
    dsimp only
    split <;> split <;> first | exact le_rfl | (split <;> exact le_rfl)
  | minimize id t th =>
    unfold applyOp minimizeWindow
    dsimp only
    split <;> exact le_rfl
  | restore id => exact Nat.le_succ _
  | maximize id => exact Nat.le_succ _
  | toggleMax id vw vh => exact le_rfl
  | activate id => exact Nat.le_succ _
  | updatePos id px py pw ph => exact le_rfl
  | updateSize id w2 h2 => exact le_rfl
  | clearMinAnim id => exact le_rfl

theorem map_fixes_of_unknown_id {mark : WindowState → WindowState} {id : Nat}
    (s : WMState) (hid : id ∉ s.windows.map fun w => w.id)
    (hfix : ∀ w, w.id ≠ id → mark w = w) :
    s.windows.map mark = s.windows := by
  have : ∀ w ∈ s.windows, mark w = w := by
    intro w hw
    refine hfix w fun hcontra => hid ?_
    exact hcontra ▸ List.mem_map_of_mem (fun w => w.id) hw
  rw [List.map_congr_left this]
  simp

/-! ### Claim theorems: window manager -/

/-- C7: after any single WindowManager operation applied to any
reachable WindowManager state, the number of windows with
`isActive = true` is 0 or 1. -/
theorem wm_at_most_one_active (s : WMState) (h : WMReach s) (op : WMOp) :
    countActive (applyOp op s).windows ≤ 1 :=
  (wmInv_applyOp op s (wmInv_reach h)).activeLe

/-- Witness for C7 at a concrete reachable state and operation. -/
theorem wm_at_most_one_active_witness :
    countActive (applyOp (.close 0) initWM).windows ≤ 1 :=
  wm_at_most_one_active initWM WMReach.init (.close 0)

/-- C6: in every reachable state all `zIndex` values are distinct and
bounded by `highestZIndex`, no operation ever lowers `highestZIndex`
(so `zIndex` allocations, always `highestZIndex + 1`, strictly increase
across any sequence and are never reused), and the window just opened
or activated receives `highestZIndex + 1`, the strict maximum among all
windows. -/
theorem wm_zindex_monotonic (s : WMState) (h : WMReach s) :
    (∀ w ∈ s.windows, w.zIndex ≤ s.highestZIndex) ∧
    (s.windows.map fun w => w.zIndex).Nodup ∧
    (∀ op : WMOp, s.highestZIndex ≤ (applyOp op s).highestZIndex) ∧
    (∀ p : OpenParams, (openWindow p s).1.highestZIndex = s.highestZIndex + 1 ∧
      ∃ w ∈ (openWindow p s).1.windows, w.id = s.nextId ∧ w.zIndex = s.highestZIndex + 1 ∧
        ∀ w' ∈ (openWindow p s).1.windows, w' ≠ w → w'.zIndex < w.zIndex) ∧
    (∀ id ∈ s.windows.map fun w => w.id,
      (activateWindow id s).highestZIndex = s.highestZIndex + 1 ∧
      ∃ w ∈ (activateWindow id s).windows, w.id = id ∧ w.zIndex = s.highestZIndex + 1 ∧
        ∀ w' ∈ (activateWindow id s).windows, w' ≠ w → w'.zIndex < w.zIndex) := by
  have hinv := wmInv_reach h
  refine ⟨hinv.zLe, hinv.nodupZ, fun op => hz_mono op s, ?_, ?_⟩
  · intro p
    refine ⟨rfl, ?_⟩
    refine ⟨_, List.mem_append_right _ (List.mem_singleton_self _), rfl, rfl, ?_⟩
    intro w' hw' hne
    simp only [openWindow, List.mem_append, List.mem_singleton] at hw'
    rcases hw' with hw' | rfl
    · obtain ⟨v, hv, rfl⟩ := List.mem_map.mp hw'
      have := hinv.zLe v hv
      simp only [deactivate]
      omega
    · exact absurd rfl hne
  · intro id hid
    obtain ⟨v, hv, hvid⟩ := List.mem_map.mp hid
    refine ⟨rfl, ?_⟩
    refine ⟨activateMark id (s.highestZIndex + 1) v, List.mem_map_of_mem _ hv, ?_, ?_, ?_⟩
    · simp [activateMark, hvid]
    · simp [activateMark, hvid]
    · intro w' hw' hne
      simp only [activateWindow, List.mem_map] at hw'
      obtain ⟨u, hu, rfl⟩ := hw'
      by_cases huid : u.id = id
      · exact absurd (congrArg (activateMark id (s.highestZIndex + 1))
          (List.inj_on_of_nodup_map hinv.nodupIds hu hv (huid.trans hvid.symm))) hne
      · have h1 := hinv.zLe u hu
        simp only [activateMark, deactivate, if_neg huid, if_pos hvid]
        omega

/-- Witness for C6 at a concrete reachable state: activating window 0
of the one-window state allocates `highestZIndex + 1` and makes it the
strict maximum. -/
theorem wm_zindex_monotonic_witness :
    (activateWindow 0 wm1).highestZIndex = wm1.highestZIndex + 1 ∧
    ∃ w ∈ (activateWindow 0 wm1).windows, w.id = 0 ∧ w.zIndex = wm1.highestZIndex + 1 ∧
      ∀ w' ∈ (activateWindow 0 wm1).windows, w' ≠ w → w'.zIndex < w.zIndex :=
  (wm_zindex_monotonic wm1
    (WMReach.step initWM (.openW demoParams) WMReach.init)).2.2.2.2 0 (by decide)

/-- C1 (amended): when `closeWindow` removes the window recorded as
active, the promoted window is the one with the strictly greatest
`zIndex` among all remaining windows, minimized or not; only when no
window at all remains is no window active afterwards. -/
theorem wm_close_promotes (s : WMState) (id : Nat) (h : WMReach s)
    (hact : s.activeWindowId = some id) (hmem : id ∈ s.windows.map fun w => w.id) :
    ((s.windows.filter fun w => w.id ≠ id) = [] →
      (closeWindow id s).activeWindowId = none ∧ (closeWindow id s).windows = []) ∧
    ∀ f0 t, (s.windows.filter fun w => w.id ≠ id) = f0 :: t →
      ∃ w ∈ (closeWindow id s).windows, w.isActive = true ∧
        (closeWindow id s).activeWindowId = some w.id ∧
        (∀ w' ∈ (closeWindow id s).windows, w'.zIndex ≤ w.zIndex) ∧
        (∀ w' ∈ (closeWindow id s).windows, w'.isActive = true → w' = w) := by
  have hinv := wmInv_reach h
  obtain ⟨v, hv, hvid⟩ := List.mem_map.mp hmem
  constructor
  · intro hemp
    have hall : ∀ w ∈ s.windows, w.id = id := by
      intro w hw
      by_contra hne
      have hmemf : w ∈ s.windows.filter fun w => w.id ≠ id :=
        List.mem_filter.mpr ⟨hw, by simpa using hne⟩
      rw [hemp] at hmemf
      exact absurd hmemf (List.not_mem_nil w)
    have hlen : s.windows.length = 1 := by
      rcases hws : s.windows with _ | ⟨a, _ | ⟨b, t2⟩⟩
      · rw [hws] at hv; exact absurd hv (List.not_mem_nil v)
      · rfl
      · exfalso
        have hnd := hinv.nodupIds
        rw [hws] at hnd
        simp only [List.map_cons, List.nodup_cons, List.mem_cons, List.mem_map] at hnd
        have ha := hall a (hws ▸ List.mem_cons_self a (b :: t2))
        have hb := hall b (hws ▸ List.mem_cons_of_mem a (List.mem_cons_self b t2))
        exact hnd.1 (Or.inl (ha.trans hb.symm))
    unfold closeWindow
    dsimp only
    rw [hemp]
    simp [hlen, hact]
  · intro f0 t heq
    have hf0 : f0 ∈ s.windows.filter fun w => w.id ≠ id :=
      heq ▸ List.mem_cons_self f0 t
    have hlen2 : ¬(s.windows.length = 1 ∧ s.activeWindowId = some id) := by
      rintro ⟨h1, -⟩
      obtain ⟨a, ha⟩ := List.length_eq_one.mp h1
      have hva : v = a := by rw [ha] at hv; simpa using hv
      have hf0w := List.mem_filter.mp hf0
      have hf0a : f0 = a := by rw [ha] at hf0w; simpa using hf0w.1
      have : f0.id ≠ id := by simpa using hf0w.2
      exact this (hf0a ▸ hva ▸ hvid)
    have hnd2 : ((f0 :: t).map fun w => w.id).Nodup :=
      heq ▸ (hinv.nodupIds).sublist ((List.filter_sublist s.windows).map _)
    have hzle : ∀ c ∈ f0 :: t, c.zIndex ≤ (topFold (f0 :: t) f0).zIndex :=
      topFold_z_mem (f0 :: t) f0
    have htopmem : topFold (f0 :: t) f0 ∈ f0 :: t := by
      rcases topFold_eq_or_mem (f0 :: t) f0 with he | hm
      · rw [he]; exact List.mem_cons_self f0 t
      · exact hm
    unfold closeWindow
    dsimp only
    rw [heq]
    dsimp only
    rw [if_pos hact, if_neg hlen2]
    refine ⟨setActiveTo (topFold (f0 :: t) f0).id (topFold (f0 :: t) f0),
      List.mem_map_of_mem _ htopmem, by simp [setActiveTo], rfl, ?_, ?_⟩
    · intro w' hw'
      obtain ⟨u, hu, rfl⟩ := List.mem_map.mp hw'
      exact hzle u hu
    · intro w' hw' hw'act
      obtain ⟨u, hu, rfl⟩ := List.mem_map.mp hw'
      have : u.id = (topFold (f0 :: t) f0).id := by
        simpa [setActiveTo] using hw'act
      exact congrArg _ (List.inj_on_of_nodup_map hnd2 hu htopmem this)

/-- Witness for C1's amended theorem at the two-window state `wm3`. -/
theorem wm_close_promotes_witness :
    ((wm3.windows.filter fun w => w.id ≠ 0) = [] →
      (closeWindow 0 wm3).activeWindowId = none ∧ (closeWindow 0 wm3).windows = []) ∧
    ∀ f0 t, (wm3.windows.filter fun w => w.id ≠ 0) = f0 :: t →
      ∃ w ∈ (closeWindow 0 wm3).windows, w.isActive = true ∧
        (closeWindow 0 wm3).activeWindowId = some w.id ∧
        (∀ w' ∈ (closeWindow 0 wm3).windows, w'.zIndex ≤ w.zIndex) ∧
        (∀ w' ∈ (closeWindow 0 wm3).windows, w'.isActive = true → w' = w) :=
  wm_close_promotes wm3 0
    (WMReach.step _ (.minimize 1 none none)
      (WMReach.step _ (.openW demoParams)
        (WMReach.step _ (.openW demoParams) WMReach.init)))
    (by decide) (by decide)

/-- C1 counterexample: in the reachable state `wm3` (two windows opened,
window 1 minimized, window 0 active), closing window 0 leaves only the
minimized window 1 — yet `closeWindow` promotes it: the minimized
window becomes active, where the claim demands that no window be
active. -/
theorem wm_close_minimized_active_cex :
    (closeWindow 0 wm3).activeWindowId = some 1 ∧
    ((closeWindow 0 wm3).windows.filter fun w => w.isActive && w.isMinimized).length = 1 := by
  decide

/-- C4 (amended): with an id that belongs to no window,
`toggleMaximize`, `updateWindowPosition`, `updateWindowSize` and
`clearMinimizeAnimation` leave the state unchanged, and so does
`closeWindow` provided the id is also not the recorded
`activeWindowId`; `activateWindow` with such an id is not a no-op: it
allocates a fresh `zIndex`, deactivates every window and records the
unknown id as active. -/
theorem wm_unknown_id (s : WMState) (id : Nat) (vw vh : Int) (px py pw ph : Option Int)
    (width height : Int) (hid : id ∉ s.windows.map fun w => w.id) :
    toggleMaximize id vw vh s = s ∧
    updateWindowPosition id px py pw ph s = s ∧
    updateWindowSize id width height s = s ∧
    clearMinimizeAnimation id s = s ∧
    (s.activeWindowId ≠ some id → closeWindow id s = s) ∧
    (activateWindow id s).highestZIndex = s.highestZIndex + 1 ∧
    (activateWindow id s).windows = s.windows.map deactivate ∧
    (activateWindow id s).activeWindowId = some id := by
  refine ⟨?_, ?_, ?_, ?_, ?_, rfl, ?_, rfl⟩
  · show { s with windows := s.windows.map (toggleMark id vw vh) } = s
    rw [map_fixes_of_unknown_id s hid fun w hw => by simp [toggleMark, hw]]
  · show { s with windows := s.windows.map (updatePosMark id px py pw ph) } = s
    rw [map_fixes_of_unknown_id s hid fun w hw => by simp [updatePosMark, hw]]
  · show { s with windows := s.windows.map (updateSizeMark id width height) } = s
    rw [map_fixes_of_unknown_id s hid fun w hw => by simp [updateSizeMark, hw]]
  · show { s with windows := s.windows.map (clearAnimMark id) } = s
    rw [map_fixes_of_unknown_id s hid fun w hw => by simp [clearAnimMark, hw]]
  · intro hact
    have hfilter : (s.windows.filter fun w => w.id ≠ id) = s.windows := by
      refine List.filter_eq_self.mpr fun w hw => ?_
      simp only [ne_eq, decide_not, Bool.not_eq_true', decide_eq_false_iff_not]
      exact fun hcontra => hid (hcontra ▸ List.mem_map_of_mem (fun w => w.id) hw)
    unfold closeWindow
    dsimp only
    rw [hfilter]
    have hcond : ¬(s.windows.length = 1 ∧ s.activeWindowId = some id) := fun hc => hact hc.2
    rw [if_neg hcond]
    split
    · rfl
    · rw [if_neg hact]
  · show s.windows.map (activateMark id (s.highestZIndex + 1)) = s.windows.map deactivate
    refine List.map_congr_left fun w hw => ?_
    have : w.id ≠ id := fun hcontra => hid (hcontra ▸ List.mem_map_of_mem (fun w => w.id) hw)
    simp [activateMark, this]

/-- Witness for C4's amended theorem: id 99 is unknown in the
one-window state `wm1`. -/
theorem wm_unknown_id_witness :
    toggleMaximize 99 1200 800 wm1 = wm1 ∧
    updateWindowPosition 99 none none none none wm1 = wm1 ∧
    updateWindowSize 99 300 200 wm1 = wm1 ∧
    clearMinimizeAnimation 99 wm1 = wm1 ∧
    (wm1.activeWindowId ≠ some 99 → closeWindow 99 wm1 = wm1) ∧
    (activateWindow 99 wm1).highestZIndex = wm1.highestZIndex + 1 ∧
    (activateWindow 99 wm1).windows = wm1.windows.map deactivate ∧
    (activateWindow 99 wm1).activeWindowId = some 99 :=
  wm_unknown_id wm1 99 1200 800 none none none none 300 200 (by decide)

/-- C4 counterexample: in the reachable one-window state `wm1`, id 99
belongs to no window, yet `activateWindow(99)` changes the state: it
bumps `highestZIndex` and deactivates window 0. -/
theorem wm_unknown_id_cex :
    (99 ∉ wm1.windows.map fun w => w.id) ∧ activateWindow 99 wm1 ≠ wm1 ∧
    (activateWindow 99 wm1).highestZIndex = 2 ∧
    (activateWindow 99 wm1).windows.map (fun w => w.isActive) = [false] := by
  decide

/-! ### File system: metadata merge and getPath lemmas -/

theorem lookup_mapped_patch (old patch : List (String × String)) (k : String) :
    (old.map fun kv =>
        match patch.lookup kv.1 with
        | some v => (kv.1, v)
        | none => kv).lookup k =
      match old.lookup k with
      | some w => some ((patch.lookup k).getD w)
      | none => none := by
  induction old with
  | nil => simp
  | cons kv t ih =>
    obtain ⟨k1, v1⟩ := kv
    by_cases hk : k = k1
    · subst hk
      cases hp : patch.lookup k <;> simp [List.lookup, hp]
    · have hbeq : (k == k1) = false := beq_false_of_ne hk
      cases hp : patch.lookup k1 <;>
        simp only [List.map_cons, List.lookup, hp, hbeq] <;> exact ih

theorem lookup_filtered_patch (old patch : List (String × String)) (k : String)
    (h : old.lookup k = none) :
    (patch.filter fun kv => (old.lookup kv.1).isNone).lookup k = patch.lookup k := by
  induction patch with
  | nil => simp
  | cons kv t ih =>
    obtain ⟨k2, v2⟩ := kv
    by_cases hk : k = k2
    · subst hk
      simp only [List.filter_cons, h, Option.isNone_none]
      simp [List.lookup]
    · have hbeq : (k == k2) = false := beq_false_of_ne hk
      by_cases hkeep : (old.lookup k2).isNone
      · simp only [List.filter_cons, hkeep, if_pos]
        simp only [List.lookup, hbeq]
        exact ih
      · simp only [List.filter_cons, hkeep, if_neg, Bool.false_eq_true, not_false_iff]
        simp only [List.lookup, hbeq] at *
        exact ih

theorem lookup_jsMergeMeta (old patch : List (String × String)) (k : String) :
    (jsMergeMeta old patch).lookup k = (patch.lookup k).or (old.lookup k) := by
  unfold jsMergeMeta
  rw [List.lookup_append, lookup_mapped_patch]
  cases ho : old.lookup k with
  | some w =>
    cases hp : patch.lookup k <;> simp [hp]
  | none =>
    rw [lookup_filtered_patch old patch k ho]
    cases hp : patch.lookup k <;> simp [hp]

/-! ### Claim theorems: metadata update and getPath on missing ids -/

/-- C9: for an existing entity, `updateEntityMetadata` succeeds,
replaces exactly that entity's list entry by a copy whose only changed
field is `metadata` (so `modifiedAt`, `name`, `parentId`, `content` and
every other entity are untouched), and the new metadata is the shallow
merge: patched keys take the patch value, all other keys keep their
previous value. -/
theorem updateEntityMetadata_spec (fs : FsState) (id : Nat)
    (patch : List (String × String)) (e : Entity) (h : getEntity fs id = some e) :
    (updateEntityMetadata fs id patch).1 = .ok () ∧
    (updateEntityMetadata fs id patch).2.rootId = fs.rootId ∧
    (updateEntityMetadata fs id patch).2.nextId = fs.nextId ∧
    (updateEntityMetadata fs id patch).2.entities = fs.entities.map (fun x =>
      if x.id == id then { e with metadata := jsMergeMeta e.metadata patch } else x) ∧
    (∀ k, patch.lookup k = none →
      (jsMergeMeta e.metadata patch).lookup k = e.metadata.lookup k) ∧
    (∀ k v, patch.lookup k = some v → (jsMergeMeta e.metadata patch).lookup k = some v) := by
  have h2 : fs.entities.find? (fun x => x.id == id) = some e := h
  have hmem : e ∈ fs.entities := List.mem_of_find?_eq_some h2
  have hid : (e.id == id) = true := by simpa using List.find?_some h2
  have hany : fs.entities.any (fun x =>
      x.id == ({ e with metadata := jsMergeMeta e.metadata patch } : Entity).id) = true :=
    List.any_eq_true.mpr ⟨e, hmem, by simp⟩
  refine ⟨?_, ?_, ?_, ?_, ?_, ?_⟩
  · simp [updateEntityMetadata, h]
  · simp [updateEntityMetadata, h, dbSaveEntity, hany]
  · simp [updateEntityMetadata, h, dbSaveEntity, hany]
  · simp only [updateEntityMetadata, h, dbSaveEntity, hany, if_pos]
    refine List.map_congr_left fun x _ => ?_
    have heid : e.id = id := eq_of_beq hid
    rw [heid]
  · intro k hk
    rw [lookup_jsMergeMeta, hk]
    rfl
  · intro k v hk
    rw [lookup_jsMergeMeta, hk]
    rfl

/-- Witness for C9: patching metadata of the `Docs` directory. -/
theorem updateEntityMetadata_spec_witness :
    (updateEntityMetadata fsDocs 1 [("x", "1")]).1 = .ok () ∧
    (updateEntityMetadata fsDocs 1 [("x", "1")]).2.rootId = fsDocs.rootId ∧
    (updateEntityMetadata fsDocs 1 [("x", "1")]).2.nextId = fsDocs.nextId ∧
    (updateEntityMetadata fsDocs 1 [("x", "1")]).2.entities = fsDocs.entities.map (fun x =>
      if x.id == 1 then
        { docsEntity with metadata := jsMergeMeta docsEntity.metadata [("x", "1")] }
      else x) ∧
    (∀ k, (([("x", "1")] : List (String × String)).lookup k) = none →
      (jsMergeMeta docsEntity.metadata [("x", "1")]).lookup k =
        docsEntity.metadata.lookup k) ∧
    (∀ k v, (([("x", "1")] : List (String × String)).lookup k) = some v →
      (jsMergeMeta docsEntity.metadata [("x", "1")]).lookup k = some v) :=
  updateEntityMetadata_spec fsDocs 1 [("x", "1")] docsEntity (by decide)

/-- C10: `getPath` on an id that corresponds to no stored entity
returns the empty string (the same plain-string channel as every other
`getPath` result, and not the root path `"/"`). -/
theorem getPath_missing (fs : FsState) (id : Nat) (h : getEntity fs id = none) :
    getPath fs id = "" ∧ getPath fs id ≠ "/" := by
  have h' : dbGetEntity fs id = none := h
  have : getPath fs id = "" := by
    unfold getPath
    simp [getPathFuel, h']
  refine ⟨this, ?_⟩
  rw [this]
  decide

/-- Witness for C10: id 999 is not stored in the initialized file
system. -/
theorem getPath_missing_witness :
    getPath initFs 999 = "" ∧ getPath initFs 999 ≠ "/" :=
  getPath_missing initFs 999 (by decide)

/-! ### File system: store lemmas -/

theorem ids_map_replace (l : List Entity) (e : Entity) :
    ((l.map fun x => if x.id == e.id then e else x).map fun x => x.id) = l.map fun x => x.id := by
  rw [List.map_map]
  refine List.map_congr_left fun x _ => ?_
  by_cases hx : (x.id == e.id) = true
  · simp [Function.comp, hx, (eq_of_beq hx).symm]
  · simp [Function.comp, hx]

theorem find?_id_cons_pos (l : List Entity) (a : Entity) (k : Nat) (h : (a.id == k) = true) :
    ((a :: l).find? fun x => x.id == k) = some a :=
  List.find?_cons_of_pos l h

theorem find?_id_cons_neg (l : List Entity) (a : Entity) (k : Nat) (h : ¬(a.id == k) = true) :
    ((a :: l).find? fun x => x.id == k) = l.find? fun x => x.id == k :=
  List.find?_cons_of_neg l h

theorem find?_id_replace (l : List Entity) (e : Entity) (k : Nat) (hne : e.id ≠ k) :
    ((l.map fun x => if x.id == e.id then e else x).find? fun x => x.id == k) =
      l.find? fun x => x.id == k := by
  induction l with
  | nil => rfl
  | cons x t ih =>
    simp only [List.map_cons]
    by_cases hx : (x.id == e.id) = true
    · have hxe : x.id = e.id := eq_of_beq hx
      have hxk : ¬(x.id == k) = true := by simp [hxe]; exact hne
      have hek : ¬(e.id == k) = true := by simp; exact hne
      rw [if_pos hx, find?_id_cons_neg _ _ _ hek, find?_id_cons_neg _ _ _ hxk]
      exact ih
    · rw [if_neg hx]
      by_cases hxk : (x.id == k) = true
      · rw [find?_id_cons_pos _ _ _ hxk, find?_id_cons_pos _ _ _ hxk]
      · rw [find?_id_cons_neg _ _ _ hxk, find?_id_cons_neg _ _ _ hxk]
        exact ih

theorem find?_id_filter_ne (l : List Entity) (target k : Nat) (hne : target ≠ k) :
    ((l.filter fun x => x.id ≠ target).find? fun x => x.id == k) =
      l.find? fun x => x.id == k := by
  induction l with
  | nil => rfl
  | cons x t ih =>
    rw [List.filter_cons]
    by_cases hx : x.id = target
    · have hxk : ¬(x.id == k) = true := by simp [hx]; exact hne
      rw [if_neg (by simp [hx]), find?_id_cons_neg _ _ _ hxk]
      exact ih
    · rw [if_pos (by simp [hx])]
      by_cases hxk : (x.id == k) = true
      · rw [find?_id_cons_pos _ _ _ hxk, find?_id_cons_pos _ _ _ hxk]
      · rw [find?_id_cons_neg _ _ _ hxk, find?_id_cons_neg _ _ _ hxk]
        exact ih

theorem any_id_fresh (fs : FsState) (hlt : ∀ e ∈ fs.entities, e.id < fs.nextId) :
    (fs.entities.any fun x => x.id == fs.nextId) = false := by
  rw [Bool.eq_false_iff]
  intro hany
  obtain ⟨x, hx, hxid⟩ := List.any_eq_true.mp hany
  have := hlt x hx
  have := eq_of_beq hxid
  omega

theorem find?_id_replace_eq (l : List Entity) (e : Entity) (k : Nat) (hek : e.id = k)
    (r : Entity) (h : l.find? (fun x => x.id == k) = some r) :
    ((l.map fun x => if x.id == e.id then e else x).find? fun x => x.id == k) = some e := by
  induction l with
  | nil => simp at h
  | cons x t ih =>
    simp only [List.map_cons]
    by_cases hxk : (x.id == k) = true
    · have hxe : (x.id == e.id) = true := by
        rw [hek]; exact hxk
      rw [if_pos hxe]
      exact find?_id_cons_pos _ _ _ (by simp [hek])
    · have hxe : ¬(x.id == e.id) = true := by
        rw [hek]; exact hxk
      rw [if_neg hxe]
      rw [find?_id_cons_neg _ _ _ hxk] at h
      rw [find?_id_cons_neg _ _ _ hxk]
      exact ih h

theorem dbGetEntity_mem_id (fs : FsState) (id : Nat) (e : Entity)
    (h : dbGetEntity fs id = some e) : e ∈ fs.entities ∧ e.id = id :=
  ⟨List.mem_of_find?_eq_some h, eq_of_beq (by simpa using List.find?_some h)⟩

theorem rootInv_fs0 : RootInv fs0 := by
  refine ⟨by decide, by decide, ⟨rootEntity, rfl, rfl, rfl, rfl⟩, by decide⟩

theorem rootInv_save_fresh (fs : FsState) (newE : Entity) (h : RootInv fs)
    (hid : newE.id = fs.nextId) (hp : newE.parentId.isSome) :
    RootInv { dbSaveEntity fs newE with nextId := fs.nextId + 1 } := by
  have hany : (fs.entities.any fun x => x.id == newE.id) = false := by
    rw [hid]; exact any_id_fresh fs h.idsLt
  unfold dbSaveEntity
  rw [hany]
  simp only [Bool.false_eq_true, if_false]
  refine ⟨?_, ?_, ?_, ?_⟩
  · rw [List.map_append, List.nodup_append]
    refine ⟨h.nodupIds, List.nodup_singleton _, ?_⟩
    intro a ha hb
    simp only [List.map_cons, List.map_nil, List.mem_singleton] at hb
    obtain ⟨v, hv, rfl⟩ := List.mem_map.mp ha
    have := h.idsLt v hv
    omega
  · intro e he
    rcases List.mem_append.mp he with he | he
    · exact Nat.lt_succ_of_lt (h.idsLt e he)
    · rw [List.mem_singleton.mp he, hid]
      exact Nat.lt_succ_self _
  · obtain ⟨r, hr, h1, h2, h3⟩ := h.rootOk
    refine ⟨r, ?_, h1, h2, h3⟩
    have hr' : fs.entities.find? (fun x => x.id == fs.rootId) = some r := hr
    show ((fs.entities ++ [newE]).find? fun x => x.id == fs.rootId) = some r
    rw [List.find?_append, hr']
    rfl
  · intro e he hnone
    rcases List.mem_append.mp he with he | he
    · exact h.uniqNone e he hnone
    · rw [List.mem_singleton.mp he] at hnone ⊢
      rw [hnone] at hp
      simp at hp

theorem rootInv_replace (fs : FsState) (orig e' : Entity) (h : RootInv fs)
    (horig : orig ∈ fs.entities) (hid : orig.id = e'.id)
    (hpar : e'.parentId = none → e'.id = fs.rootId)
    (hroot : e'.id = fs.rootId →
      e'.name = "/" ∧ e'.parentId = none ∧ e'.data = .directory) :
    RootInv (dbSaveEntity fs e') := by
  have hany : (fs.entities.any fun x => x.id == e'.id) = true :=
    List.any_eq_true.mpr ⟨orig, horig, by simp [hid]⟩
  unfold dbSaveEntity
  rw [hany]
  simp only [if_true]
  refine ⟨?_, ?_, ?_, ?_⟩
  · rw [ids_map_replace]
    exact h.nodupIds
  · intro e he
    obtain ⟨x, hx, rfl⟩ := List.mem_map.mp he
    by_cases hxe : (x.id == e'.id) = true
    · rw [if_pos hxe]
      show e'.id < fs.nextId
      rw [← hid]
      exact h.idsLt orig horig
    · rw [if_neg hxe]
      exact h.idsLt x hx
  · obtain ⟨r, hr, h1, h2, h3⟩ := h.rootOk
    by_cases he : e'.id = fs.rootId
    · obtain ⟨g1, g2, g3⟩ := hroot he
      exact ⟨e', find?_id_replace_eq fs.entities e' fs.rootId he r hr, g1, g2, g3⟩
    · refine ⟨r, ?_, h1, h2, h3⟩
      exact (find?_id_replace fs.entities e' fs.rootId he).trans hr
  · intro e he hnone
    obtain ⟨x, hx, rfl⟩ := List.mem_map.mp he
    by_cases hxe : (x.id == e'.id) = true
    · rw [if_pos hxe] at hnone ⊢
      exact hpar hnone
    · rw [if_neg hxe] at hnone ⊢
      exact h.uniqNone x hx hnone

theorem rootInv_createDirectory (fs : FsState) (name : String) (pid now : Nat)
    (h : RootInv fs) : RootInv (createDirectory fs name pid now).2 := by
  cases hp : dbGetEntity fs pid with
  | none => simp only [createDirectory, hp]; exact h
  | some parent =>
    simp only [createDirectory, hp]
    cases hdir : parent.isDir with
    | false => simp only [Bool.not_false, if_true]; exact h
    | true =>
      simp only [Bool.not_true, Bool.false_eq_true, if_false]
      cases hcol : (dbEntitiesByParent fs (some pid)).any fun e => e.name == name with
      | true => simp only [if_true]; exact h
      | false =>
        simp only [Bool.false_eq_true, if_false]
        exact rootInv_save_fresh fs _ h rfl rfl

theorem rootInv_createFile (fs : FsState) (name : String) (pid : Nat)
    (content mimeType : String) (now : Nat) (h : RootInv fs) :
    RootInv (createFile fs name pid content mimeType now).2 := by
  cases hp : dbGetEntity fs pid with
  | none => simp only [createFile, hp]; exact h
  | some parent =>
    simp only [createFile, hp]
    cases hdir : parent.isDir with
    | false => simp only [Bool.not_false, if_true]; exact h
    | true =>
      simp only [Bool.not_true, Bool.false_eq_true, if_false]
      cases hcol : (dbEntitiesByParent fs (some pid)).any fun e => e.name == name with
      | true => simp only [if_true]; exact h
      | false =>
        simp only [Bool.false_eq_true, if_false]
        exact rootInv_save_fresh fs _ h rfl rfl

theorem rootInv_createLink (fs : FsState) (name : String) (pid : Nat)
    (targetType : LinkTargetType) (target : String) (now : Nat) (h : RootInv fs) :
    RootInv (createLink fs name pid targetType target now).2 := by
  cases hp : dbGetEntity fs pid with
  | none => simp only [createLink, hp]; exact h
  | some parent =>
    simp only [createLink, hp]
    cases hdir : parent.isDir with
    | false => simp only [Bool.not_false, if_true]; exact h
    | true =>
      simp only [Bool.not_true, Bool.false_eq_true, if_false]
      cases hcol : (dbEntitiesByParent fs (some pid)).any fun e => e.name == name with
      | true => simp only [if_true]; exact h
      | false =>
        simp only [Bool.false_eq_true, if_false]
        exact rootInv_save_fresh fs _ h rfl rfl

theorem rootInv_registerApplication (fs : FsState) (name : String) (pid : Nat)
    (appId : String) (now : Nat) (h : RootInv fs) :
    RootInv (registerApplication fs name pid appId now).2 := by
  cases hp : dbGetEntity fs pid with
  | none => simp only [registerApplication, hp]; exact h
  | some parent =>
    simp only [registerApplication, hp]
    cases hdir : parent.isDir with
    | false => simp only [Bool.not_false, if_true]; exact h
    | true =>
      simp only [Bool.not_true, Bool.false_eq_true, if_false]
      exact rootInv_save_fresh fs _ h rfl rfl

theorem root_entry_unique (fs : FsState) (h : RootInv fs) (x : Entity) (hx : x ∈ fs.entities)
    (hxid : x.id = fs.rootId) :
    x.name = "/" ∧ x.parentId = none ∧ x.data = .directory := by
  obtain ⟨r, hr, h1, h2, h3⟩ := h.rootOk
  obtain ⟨hrmem, hrid⟩ := dbGetEntity_mem_id fs fs.rootId r hr
  have hxr : x = r :=
    List.inj_on_of_nodup_map h.nodupIds hx hrmem (by rw [hxid, hrid])
  rw [hxr]
  exact ⟨h1, h2, h3⟩

theorem rootInv_updateFileContent (fs : FsState) (fileId : Nat) (content : String)
    (now : Nat) (h : RootInv fs) : RootInv (updateFileContent fs fileId content now).2 := by
  cases hf : dbGetEntity fs fileId with
  | none => simp only [updateFileContent, hf]; exact h
  | some file =>
    obtain ⟨hmem, hfid⟩ := dbGetEntity_mem_id fs fileId file hf
    cases hd : file.data with
    | file c m =>
      simp only [updateFileContent, hf, hd]
      refine rootInv_replace fs file _ h hmem rfl ?_ ?_
      · intro hnone
        exact h.uniqNone file hmem hnone
      · intro hrt
        have hprops := root_entry_unique fs h file hmem hrt
        rw [hd] at hprops
        exact absurd hprops.2.2 (by simp)
    | directory => simp only [updateFileContent, hf, hd]; exact h
    | link tt tg => simp only [updateFileContent, hf, hd]; exact h
    | application a => simp only [updateFileContent, hf, hd]; exact h

theorem rootInv_renameEntity (fs : FsState) (entityId : Nat) (newName : String) (now : Nat)
    (hne : entityId ≠ fs.rootId) (h : RootInv fs) :
    RootInv (renameEntity fs entityId newName now).2 := by
  cases he : dbGetEntity fs entityId with
  | none => simp only [renameEntity, he]; exact h
  | some entity =>
    obtain ⟨hmem, hid⟩ := dbGetEntity_mem_id fs entityId entity he
    simp only [renameEntity, he]
    cases hcol : (dbEntitiesByParent fs entity.parentId).any
        (fun e => e.name == newName && e.id ≠ entityId) with
    | true => simp only [if_true]; exact h
    | false =>
      simp only [Bool.false_eq_true, if_false]
      refine rootInv_replace fs entity _ h hmem rfl ?_ ?_
      · intro hnone
        exact h.uniqNone entity hmem hnone
      · intro hrt
        exact absurd (hid ▸ hrt) hne

theorem rootInv_moveEntity (fs : FsState) (entityId newParentId now : Nat)
    (hne : entityId ≠ fs.rootId) (h : RootInv fs) :
    RootInv (moveEntity fs entityId newParentId now).2 := by
  cases he : dbGetEntity fs entityId with
  | none => simp only [moveEntity, he]; exact h
  | some entity =>
    obtain ⟨hmem, hid⟩ := dbGetEntity_mem_id fs entityId entity he
    cases hp : dbGetEntity fs newParentId with
    | none => simp only [moveEntity, he, hp]; exact h
    | some newParent =>
      simp only [moveEntity, he, hp]
      cases hdir : newParent.isDir with
      | false => simp only [Bool.not_false, if_true]; exact h
      | true =>
        simp only [Bool.not_true, Bool.false_eq_true, if_false]
        cases hcol : (dbEntitiesByParent fs (some newParentId)).any
            (fun e => e.name == entity.name) with
        | true => simp only [if_true]; exact h
        | false =>
          simp only [Bool.false_eq_true, if_false]
          refine rootInv_replace fs entity _ h hmem rfl ?_ ?_
          · intro hnone
            simp at hnone
          · intro hrt
            exact absurd (hid ▸ hrt) hne

theorem rootInv_updateLink (fs : FsState) (linkId : Nat) (updates : LinkUpdates) (now : Nat)
    (h : RootInv fs) : RootInv (updateLink fs linkId updates now).2 := by
  cases hl : dbGetEntity fs linkId with
  | none => simp only [updateLink, getEntity, hl]; exact h
  | some link =>
    obtain ⟨hmem, hid⟩ := dbGetEntity_mem_id fs linkId link hl
    cases hd : link.data with
    | file c m => simp only [updateLink, getEntity, hl, hd]; exact h
    | directory => simp only [updateLink, getEntity, hl, hd]; exact h
    | application a => simp only [updateLink, getEntity, hl, hd]; exact h
    | link tt tg =>
      simp only [updateLink, getEntity, hl, hd]
      split
      · exact h
      · refine rootInv_replace fs link _ h hmem rfl ?_ ?_
        · intro hnone
          exact h.uniqNone link hmem hnone
        · intro hrt
          have hprops := root_entry_unique fs h link hmem hrt
          rw [hd] at hprops
          exact absurd hprops.2.2 (by simp)

theorem rootInv_updateEntityMetadata (fs : FsState) (entityId : Nat)
    (patch : List (String × String)) (h : RootInv fs) :
    RootInv (updateEntityMetadata fs entityId patch).2 := by
  cases he : dbGetEntity fs entityId with
  | none => simp only [updateEntityMetadata, getEntity, he]; exact h
  | some entity =>
    obtain ⟨hmem, hid⟩ := dbGetEntity_mem_id fs entityId entity he
    simp only [updateEntityMetadata, getEntity, he]
    refine rootInv_replace fs entity _ h hmem rfl ?_ ?_
    · intro hnone
      exact h.uniqNone entity hmem hnone
    · intro hrt
      exact root_entry_unique fs h entity hmem hrt

theorem rootInv_dbDelete (fs : FsState) (id : Nat) (h : RootInv fs) (hne : id ≠ fs.rootId) :
    RootInv (dbDeleteEntity fs id) := by
  refine ⟨?_, ?_, ?_, ?_⟩
  · exact h.nodupIds.sublist ((List.filter_sublist _).map _)
  · intro e he
    exact h.idsLt e ((List.filter_sublist _).mem he)
  · obtain ⟨r, hr, h1, h2, h3⟩ := h.rootOk
    refine ⟨r, ?_, h1, h2, h3⟩
    show ((fs.entities.filter fun x => x.id ≠ id).find? fun x => x.id == fs.rootId) = some r
    rw [find?_id_filter_ne fs.entities id fs.rootId hne]
    exact hr
  · intro e he
    exact h.uniqNone e ((List.filter_sublist _).mem he)

theorem rootInv_deleteFuel : ∀ (n : Nat) (fs : FsState) (id : Nat) (res : FsRes Unit)
    (fs' : FsState), RootInv fs → id ≠ fs.rootId →
    deleteEntityFuel n fs id = some (res, fs') →
    RootInv fs' ∧ fs'.rootId = fs.rootId := by
  intro n
  induction n with
  | zero =>
    intro fs id res fs' _ _ hdel
    simp [deleteEntityFuel] at hdel
  | succ n ih =>
    intro fs id res fs' h hne hdel
    simp only [deleteEntityFuel] at hdel
    cases he : dbGetEntity fs id with
    | none =>
      rw [he] at hdel
      simp only [Option.some_inj, Prod.mk.injEq] at hdel
      rw [← hdel.2]
      exact ⟨h, rfl⟩
    | some entity =>
      rw [he] at hdel
      dsimp only at hdel
      have hchild : ∀ c ∈ dbEntitiesByParent fs (some id), c.id ≠ fs.rootId := by
        intro c hc hcid
        have hcmem : c ∈ fs.entities := (List.filter_sublist _).mem hc
        have hcpar : c.parentId = some id := by
          have := List.of_mem_filter hc
          exact eq_of_beq (by simpa using this)
        have hprops := root_entry_unique fs h c hcmem hcid
        rw [hcpar] at hprops
        exact absurd hprops.2.1 (by simp)
      have haux : ∀ (cs : List Entity) (acc : FsState), (∀ c ∈ cs, c.id ≠ fs.rootId) →
          RootInv acc → acc.rootId = fs.rootId → ∀ out,
          cs.foldlM (fun acc child => (deleteEntityFuel n acc child.id).map Prod.snd) acc =
            some out →
          RootInv out ∧ out.rootId = fs.rootId := by
        intro cs
        induction cs with
        | nil =>
          intro acc _ hacc hrid out hout
          simp only [List.foldlM_nil, Option.pure_def, Option.some_inj] at hout
          rw [← hout]
          exact ⟨hacc, hrid⟩
        | cons c ct ihc =>
          intro acc hcs hacc hrid out hout
          rw [List.foldlM_cons] at hout
          cases hstep : deleteEntityFuel n acc c.id with
          | none => rw [hstep] at hout; simp at hout
          | some pr =>
            obtain ⟨r1, acc1⟩ := pr
            rw [hstep] at hout
            simp only [Option.map_some', Option.some_bind] at hout
            have hc1 : RootInv acc1 ∧ acc1.rootId = acc.rootId :=
              ih acc c.id r1 acc1 hacc
                (by rw [hrid]; exact hcs c (List.mem_cons_self c ct)) hstep
            exact ihc acc1 (fun d hd => hcs d (List.mem_cons_of_mem c hd)) hc1.1
              (hc1.2.trans hrid) out hout
      cases hdir : entity.isDir with
      | false =>
        rw [hdir] at hdel
        simp only [Bool.false_eq_true, if_false, Option.some_inj, Prod.mk.injEq] at hdel
        rw [← hdel.2]
        exact ⟨rootInv_dbDelete fs id h hne, rfl⟩
      | true =>
        rw [hdir] at hdel
        simp only [if_true] at hdel
        cases hfold : (dbEntitiesByParent fs (some id)).foldlM
            (fun acc child => (deleteEntityFuel n acc child.id).map Prod.snd) fs with
        | none => rw [hfold] at hdel; simp at hdel
        | some fs1 =>
          rw [hfold] at hdel
          simp only [Option.some_inj, Prod.mk.injEq] at hdel
          obtain ⟨hinv1, hrid1⟩ := haux _ fs hchild h rfl fs1 hfold
          rw [← hdel.2]
          exact ⟨rootInv_dbDelete fs1 id hinv1 (hrid1 ▸ hne), hrid1⟩

theorem rootInv_deleteEntity (fs : FsState) (id : Nat) (h : RootInv fs)
    (hne : id ≠ fs.rootId) : RootInv (deleteEntity fs id).2 := by
  unfold deleteEntity
  cases hdel : deleteEntityFuel (fs.entities.length + 1) fs id with
  | none => exact h
  | some pr =>
    obtain ⟨res, fs'⟩ := pr
    exact (rootInv_deleteFuel _ fs id res fs' h hne hdel).1

theorem rootInv_reach {fs : FsState} (h : RootSafeReach fs) : RootInv fs := by
  induction h with
  | base => exact rootInv_fs0
  | mkdir fs name pid now _ ih => exact rootInv_createDirectory fs name pid now ih
  | mkfile fs name pid content mime now _ ih =>
    exact rootInv_createFile fs name pid content mime now ih
  | mkapp fs name pid appId now _ ih =>
    exact rootInv_registerApplication fs name pid appId now ih
  | mklink fs name pid tt tg now _ ih => exact rootInv_createLink fs name pid tt tg now ih
  | writeFile fs fileId content now _ ih =>
    exact rootInv_updateFileContent fs fileId content now ih
  | rename fs entityId newName now hne _ ih =>
    exact rootInv_renameEntity fs entityId newName now hne ih
  | move fs entityId newParentId now hne _ ih =>
    exact rootInv_moveEntity fs entityId newParentId now hne ih
  | delete fs entityId hne _ ih => exact rootInv_deleteEntity fs entityId ih hne
  | relink fs linkId updates now _ ih => exact rootInv_updateLink fs linkId updates now ih
  | meta fs entityId patch _ ih => exact rootInv_updateEntityMetadata fs entityId patch ih

theorem rootSafeReach_foldLinks (apps : List (String × String)) (pid : Nat) (acc : FsState)
    (h : RootSafeReach acc) :
    RootSafeReach (apps.foldl
      (fun acc app => (createLink acc app.1 pid .application app.2 0).2) acc) := by
  induction apps generalizing acc with
  | nil => exact h
  | cons a t ih =>
    exact ih _ (RootSafeReach.mklink acc a.1 pid .application a.2 0 h)

/-- A freshly initialized file system is `RootSafeReach`:
`createNewFileSystem` issues only `createDirectory`, `createLink` and
`createFile` calls from the root-only state (and its catch branch
returns the root-only state itself). -/
theorem rootSafeReach_init (apps : List (String × String)) :
    RootSafeReach (createNewFileSystem apps) := by
  have hgetD : ∀ o : Option FsState, (∀ fs, o = some fs → RootSafeReach fs) →
      RootSafeReach (o.getD fs0) := by
    intro o ho
    cases o with
    | none => exact RootSafeReach.base
    | some fs => exact ho fs rfl
  refine hgetD _ ?_
  intro fs hfs
  unfold buildDefaultTree at hfs
  cases hp1 : createDirectory fs0 "Users" 0 0 with
  | mk rUsers fsA =>
  rw [hp1] at hfs
  dsimp only at hfs
  have hA : RootSafeReach fsA := by
    have he : fsA = (createDirectory fs0 "Users" 0 0).2 := by rw [hp1]
    rw [he]
    exact RootSafeReach.mkdir _ _ _ _ RootSafeReach.base
  cases h1 : rUsers.toOption with
  | none => rw [h1] at hfs; simp at hfs
  | some users =>
  rw [h1] at hfs
  simp only [Option.pure_def, Option.bind_eq_bind, Option.some_bind] at hfs
  cases hp2 : createDirectory fsA "Applications" 0 0 with
  | mk rApps fsB =>
  rw [hp2] at hfs
  dsimp only at hfs
  have hB : RootSafeReach fsB := by
    have he : fsB = (createDirectory fsA "Applications" 0 0).2 := by rw [hp2]
    rw [he]
    exact RootSafeReach.mkdir _ _ _ _ hA
  cases h2 : rApps.toOption with
  | none => rw [h2] at hfs; simp at hfs
  | some appsDir =>
  rw [h2] at hfs
  simp only [Option.pure_def, Option.bind_eq_bind, Option.some_bind] at hfs
  have hC : RootSafeReach (createDirectory fsB "System" 0 0).2 :=
    RootSafeReach.mkdir _ _ _ _ hB
  cases hp3 : createDirectory (createDirectory fsB "System" 0 0).2 "User" users.id 0 with
  | mk rUser fsD =>
  rw [hp3] at hfs
  dsimp only at hfs
  have hD : RootSafeReach fsD := by
    have he : fsD = (createDirectory (createDirectory fsB "System" 0 0).2 "User"
        users.id 0).2 := by rw [hp3]
    rw [he]
    exact RootSafeReach.mkdir _ _ _ _ hC
  cases h3 : rUser.toOption with
  | none => rw [h3] at hfs; simp at hfs
  | some user =>
  rw [h3] at hfs
  simp only [Option.pure_def, Option.bind_eq_bind, Option.some_bind] at hfs
  cases hp4 : createDirectory fsD "Documents" user.id 0 with
  | mk rDocs fsE =>
  rw [hp4] at hfs
  dsimp only at hfs
  have hE : RootSafeReach fsE := by
    have he : fsE = (createDirectory fsD "Documents" user.id 0).2 := by rw [hp4]
    rw [he]
    exact RootSafeReach.mkdir _ _ _ _ hD
  cases h4 : rDocs.toOption with
  | none => rw [h4] at hfs; simp at hfs
  | some documents =>
  rw [h4] at hfs
  simp only [Option.pure_def, Option.bind_eq_bind, Option.some_bind] at hfs
  cases hp5 : createDirectory fsE "Desktop" user.id 0 with
  | mk rDesk fsF =>
  rw [hp5] at hfs
  dsimp only at hfs
  have hF : RootSafeReach fsF := by
    have he : fsF = (createDirectory fsE "Desktop" user.id 0).2 := by rw [hp5]
    rw [he]
    exact RootSafeReach.mkdir _ _ _ _ hE
  cases h5 : rDesk.toOption with
  | none => rw [h5] at hfs; simp at hfs
  | some desktop =>
  rw [h5] at hfs
  simp only [Option.pure_def, Option.bind_eq_bind, Option.some_bind, Option.some_inj] at hfs
  rw [← hfs]
  exact RootSafeReach.mkfile _ _ _ _ _ _
    (RootSafeReach.mkfile _ _ _ _ _ _
      (RootSafeReach.mkfile _ _ _ _ _ _
        (rootSafeReach_foldLinks apps desktop.id _
          (rootSafeReach_foldLinks apps appsDir.id _
            (RootSafeReach.mkdir _ _ _ _
              (RootSafeReach.mkdir _ _ _ _ hF))))))

/-! ### Claim theorems: root safety -/

/-- C2 (amended): `deleteEntity` and `renameEntity` do not guard the
root — applied to the root id they delete, respectively rename, the
root (see the counterexample) — but in every state reached from an
initialized file system by operations that never pass the root's id to
`deleteEntity`, `renameEntity` or `moveEntity`, the root entity still
exists, keeps its name `"/"`, and its `parentId` is null. -/
theorem root_preserved (fs : FsState) (h : RootSafeReach fs) :
    ∃ r, getEntity fs fs.rootId = some r ∧ r.name = "/" ∧ r.parentId = none ∧
      r.data = .directory :=
  (rootInv_reach h).rootOk

/-- Witness for C2's amended theorem at the freshly initialized file
system. -/
theorem root_preserved_witness :
    ∃ r, getEntity initFs initFs.rootId = some r ∧ r.name = "/" ∧ r.parentId = none ∧
      r.data = .directory :=
  root_preserved initFs (rootSafeReach_init defaultApps)

/-- C2 counterexample: on the freshly initialized file system,
`deleteEntity(rootId)` succeeds and removes the root (and the whole
tree), and `renameEntity(rootId, "zzz")` succeeds and renames the
root — no guard exists. -/
theorem root_not_guarded_cex :
    (deleteEntity initFs 0).1 = .ok () ∧
    getEntity (deleteEntity initFs 0).2 0 = none ∧
    (deleteEntity initFs 0).2.entities = [] ∧
    (renameEntity initFs 0 "zzz" 0).1 = .ok () ∧
    (getEntity (renameEntity initFs 0 "zzz" 0).2 0).map (fun e => e.name) = some "zzz" := by
  decide

/-! ### File system: sibling-name invariant machinery -/

theorem normalizeLnk_ends (n : String) : jsEndsWith (normalizeLnk n) ".lnk" = true := by
  unfold normalizeLnk
  by_cases h : jsEndsWith n ".lnk" = true
  · rw [if_pos h]; exact h
  · rw [if_neg h]
    unfold jsEndsWith
    rw [List.isSuffixOf_iff_suffix, String.data_append]
    exact List.suffix_append _ _

theorem uniqInv_fs0 : UniqInv fs0 := by
  refine ⟨by decide, by decide, by decide, by decide⟩

theorem mem_byParent (fs : FsState) (pid : Nat) (x : Entity) (hx : x ∈ fs.entities)
    (hp : x.parentId = some pid) : x ∈ dbEntitiesByParent fs (some pid) :=
  List.mem_filter.mpr ⟨hx, by simp [hp]⟩

theorem uniqInv_save_fresh (fs : FsState) (newE : Entity) (h : UniqInv fs)
    (hid : newE.id = fs.nextId) (hp : newE.parentId.isSome)
    (hnocol : ∀ x ∈ fs.entities, x.parentId = newE.parentId → x.name = newE.name →
      jsEndsWith newE.name ".lnk" = true) :
    UniqInv { dbSaveEntity fs newE with nextId := fs.nextId + 1 } := by
  have hany : (fs.entities.any fun x => x.id == newE.id) = false := by
    rw [hid]; exact any_id_fresh fs h.idsLt
  unfold dbSaveEntity
  rw [hany]
  simp only [Bool.false_eq_true, if_false]
  refine ⟨?_, ?_, ?_, ?_⟩
  · rw [List.map_append, List.nodup_append]
    refine ⟨h.nodupIds, List.nodup_singleton _, ?_⟩
    intro a ha hb
    simp only [List.map_cons, List.map_nil, List.mem_singleton] at hb
    obtain ⟨v, hv, rfl⟩ := List.mem_map.mp ha
    have := h.idsLt v hv
    omega
  · intro e he
    rcases List.mem_append.mp he with he | he
    · exact Nat.lt_succ_of_lt (h.idsLt e he)
    · rw [List.mem_singleton.mp he, hid]
      exact Nat.lt_succ_self _
  · intro e1 he1 e2 he2 h1 h2
    rcases List.mem_append.mp he1 with he1 | he1 <;>
      rcases List.mem_append.mp he2 with he2 | he2
    · exact h.uniqNone e1 he1 e2 he2 h1 h2
    · rw [List.mem_singleton.mp he2] at h2
      rw [h2] at hp
      simp at hp
    · rw [List.mem_singleton.mp he1] at h1
      rw [h1] at hp
      simp at hp
    · rw [List.mem_singleton.mp he1, List.mem_singleton.mp he2]
  · intro e1 he1 e2 he2 hne hpar hname
    rcases List.mem_append.mp he1 with he1 | he1 <;>
      rcases List.mem_append.mp he2 with he2 | he2
    · exact h.dupLnk e1 he1 e2 he2 hne hpar hname
    · rw [List.mem_singleton.mp he2] at hpar hname
      exact hname ▸ hnocol e1 he1 hpar hname
    · rw [List.mem_singleton.mp he1] at hpar hname ⊢
      exact hnocol e2 he2 hpar.symm hname.symm
    · rw [List.mem_singleton.mp he1, List.mem_singleton.mp he2] at hne
      exact absurd rfl hne

theorem uniqInv_replace (fs : FsState) (orig e' : Entity) (h : UniqInv fs)
    (horig : orig ∈ fs.entities) (hid : orig.id = e'.id)
    (hparnone : e'.parentId = none → orig.parentId = none)
    (hnew : ∀ x ∈ fs.entities, x.id ≠ orig.id → x.parentId = e'.parentId →
      x.name = e'.name → jsEndsWith e'.name ".lnk" = true) :
    UniqInv (dbSaveEntity fs e') := by
  have hany : (fs.entities.any fun x => x.id == e'.id) = true :=
    List.any_eq_true.mpr ⟨orig, horig, by simp [hid]⟩
  unfold dbSaveEntity
  rw [hany]
  simp only [if_true]
  refine ⟨?_, ?_, ?_, ?_⟩
  · rw [ids_map_replace]
    exact h.nodupIds
  · intro e he
    obtain ⟨x, hx, rfl⟩ := List.mem_map.mp he
    by_cases hxe : (x.id == e'.id) = true
    · rw [if_pos hxe]
      show e'.id < fs.nextId
      rw [← hid]
      exact h.idsLt orig horig
    · rw [if_neg hxe]
      exact h.idsLt x hx
  · intro e1 he1 e2 he2 h1 h2
    obtain ⟨x1, hx1, rfl⟩ := List.mem_map.mp he1
    obtain ⟨x2, hx2, rfl⟩ := List.mem_map.mp he2
    by_cases hxe1 : (x1.id == e'.id) = true <;> by_cases hxe2 : (x2.id == e'.id) = true
    · rw [if_pos hxe1, if_pos hxe2]
    · rw [if_pos hxe1] at h1 ⊢
      rw [if_neg hxe2] at h2 ⊢
      have horignone := hparnone h1
      have := h.uniqNone orig horig x2 hx2 horignone h2
      rw [← hid, this]
    · rw [if_neg hxe1] at h1 ⊢
      rw [if_pos hxe2] at h2 ⊢
      have horignone := hparnone h2
      have := h.uniqNone x1 hx1 orig horig h1 horignone
      rw [← hid, this]
    · rw [if_neg hxe1] at h1 ⊢
      rw [if_neg hxe2] at h2 ⊢
      exact h.uniqNone x1 hx1 x2 hx2 h1 h2
  · intro e1 he1 e2 he2 hne hpar hname
    obtain ⟨x1, hx1, rfl⟩ := List.mem_map.mp he1
    obtain ⟨x2, hx2, rfl⟩ := List.mem_map.mp he2
    by_cases hxe1 : (x1.id == e'.id) = true <;> by_cases hxe2 : (x2.id == e'.id) = true
    · rw [if_pos hxe1, if_pos hxe2] at hne
      exact absurd rfl hne
    · rw [if_pos hxe1] at hne hpar hname ⊢
      rw [if_neg hxe2] at hne hpar hname
      have hx2ne : x2.id ≠ orig.id := by
        rw [hid]
        simpa using hxe2
      exact hnew x2 hx2 hx2ne hpar.symm hname.symm
    · rw [if_neg hxe1] at hne hpar hname ⊢
      rw [if_pos hxe2] at hne hpar hname
      have hx1ne : x1.id ≠ orig.id := by
        rw [hid]
        simpa using hxe1
      exact hname ▸ hnew x1 hx1 hx1ne hpar hname
    · rw [if_neg hxe1] at hne hpar hname ⊢
      rw [if_neg hxe2] at hne hpar hname
      exact h.dupLnk x1 hx1 x2 hx2 hne hpar hname

theorem uniqInv_createDirectory (fs : FsState) (name : String) (pid now : Nat)
    (h : UniqInv fs) : UniqInv (createDirectory fs name pid now).2 := by
  cases hp : dbGetEntity fs pid with
  | none => simp only [createDirectory, hp]; exact h
  | some parent =>
    simp only [createDirectory, hp]
    cases hdir : parent.isDir with
    | false => simp only [Bool.not_false, if_true]; exact h
    | true =>
      simp only [Bool.not_true, Bool.false_eq_true, if_false]
      cases hcol : (dbEntitiesByParent fs (some pid)).any fun e => e.name == name with
      | true => simp only [if_true]; exact h
      | false =>
        simp only [Bool.false_eq_true, if_false]
        refine uniqInv_save_fresh fs _ h rfl rfl ?_
        intro x hx hpar hname
        have hxb : x ∈ dbEntitiesByParent fs (some pid) := mem_byParent fs pid x hx hpar
        have := List.any_eq_false.mp hcol x hxb
        exact absurd (by simp [hname]) this

theorem uniqInv_createFile (fs : FsState) (name : String) (pid : Nat)
    (content mime : String) (now : Nat) (h : UniqInv fs) :
    UniqInv (createFile fs name pid content mime now).2 := by
  cases hp : dbGetEntity fs pid with
  | none => simp only [createFile, hp]; exact h
  | some parent =>
    simp only [createFile, hp]
    cases hdir : parent.isDir with
    | false => simp only [Bool.not_false, if_true]; exact h
    | true =>
      simp only [Bool.not_true, Bool.false_eq_true, if_false]
      cases hcol : (dbEntitiesByParent fs (some pid)).any fun e => e.name == name with
      | true => simp only [if_true]; exact h
      | false =>
        simp only [Bool.false_eq_true, if_false]
        refine uniqInv_save_fresh fs _ h rfl rfl ?_
        intro x hx hpar hname
        have hxb : x ∈ dbEntitiesByParent fs (some pid) := mem_byParent fs pid x hx hpar
        have := List.any_eq_false.mp hcol x hxb
        exact absurd (by simp [hname]) this

theorem uniqInv_createLink (fs : FsState) (name : String) (pid : Nat)
    (targetType : LinkTargetType) (target : String) (now : Nat) (h : UniqInv fs) :
    UniqInv (createLink fs name pid targetType target now).2 := by
  cases hp : dbGetEntity fs pid with
  | none => simp only [createLink, hp]; exact h
  | some parent =>
    simp only [createLink, hp]
    cases hdir : parent.isDir with
    | false => simp only [Bool.not_false, if_true]; exact h
    | true =>
      simp only [Bool.not_true, Bool.false_eq_true, if_false]
      cases hcol : (dbEntitiesByParent fs (some pid)).any fun e => e.name == name with
      | true => simp only [if_true]; exact h
      | false =>
        simp only [Bool.false_eq_true, if_false]
        refine uniqInv_save_fresh fs _ h rfl rfl ?_
        intro x hx hpar hname
        exact normalizeLnk_ends name

theorem uniqInv_renameEntity (fs : FsState) (entityId : Nat) (newName : String) (now : Nat)
    (h : UniqInv fs) : UniqInv (renameEntity fs entityId newName now).2 := by
  cases he : dbGetEntity fs entityId with
  | none => simp only [renameEntity, he]; exact h
  | some entity =>
    obtain ⟨hmem, hid⟩ := dbGetEntity_mem_id fs entityId entity he
    simp only [renameEntity, he]
    cases hcol : (dbEntitiesByParent fs entity.parentId).any
        (fun e => e.name == newName && e.id ≠ entityId) with
    | true => simp only [if_true]; exact h
    | false =>
      simp only [Bool.false_eq_true, if_false]
      refine uniqInv_replace fs entity _ h hmem rfl (fun hn => hn) ?_
      intro x hx hxne hpar hname
      cases hop : entity.parentId with
      | none =>
        rw [hop] at hpar
        exact absurd (h.uniqNone x hx entity hmem hpar hop) hxne
      | some p =>
        rw [hop] at hpar hcol
        have hxb : x ∈ dbEntitiesByParent fs (some p) := mem_byParent fs p x hx hpar
        have := List.any_eq_false.mp hcol x hxb
        refine absurd ?_ this
        have hxid : x.id ≠ entityId := by rw [← hid]; exact hxne
        simp [hname, hxid]

theorem uniqInv_moveEntity (fs : FsState) (entityId newParentId now : Nat)
    (h : UniqInv fs) : UniqInv (moveEntity fs entityId newParentId now).2 := by
  cases he : dbGetEntity fs entityId with
  | none => simp only [moveEntity, he]; exact h
  | some entity =>
    obtain ⟨hmem, hid⟩ := dbGetEntity_mem_id fs entityId entity he
    cases hp : dbGetEntity fs newParentId with
    | none => simp only [moveEntity, he, hp]; exact h
    | some newParent =>
      simp only [moveEntity, he, hp]
      cases hdir : newParent.isDir with
      | false => simp only [Bool.not_false, if_true]; exact h
      | true =>
        simp only [Bool.not_true, Bool.false_eq_true, if_false]
        cases hcol : (dbEntitiesByParent fs (some newParentId)).any
            (fun e => e.name == entity.name) with
        | true => simp only [if_true]; exact h
        | false =>
          simp only [Bool.false_eq_true, if_false]
          refine uniqInv_replace fs entity _ h hmem rfl (by simp) ?_
          intro x hx hxne hpar hname
          have hxb : x ∈ dbEntitiesByParent fs (some newParentId) :=
            mem_byParent fs newParentId x hx hpar
          have := List.any_eq_false.mp hcol x hxb
          exact absurd (by simp [hname]) this

theorem uniqInv_updateLink (fs : FsState) (linkId : Nat) (updates : LinkUpdates) (now : Nat)
    (h : UniqInv fs) : UniqInv (updateLink fs linkId updates now).2 := by
  cases hl : dbGetEntity fs linkId with
  | none => simp only [updateLink, getEntity, hl]; exact h
  | some link =>
    obtain ⟨hmem, hid⟩ := dbGetEntity_mem_id fs linkId link hl
    cases hd : link.data with
    | file c m => simp only [updateLink, getEntity, hl, hd]; exact h
    | directory => simp only [updateLink, getEntity, hl, hd]; exact h
    | application a => simp only [updateLink, getEntity, hl, hd]; exact h
    | link tt tg =>
      simp only [updateLink, getEntity, hl, hd]
      split
      · exact h
      · next hcol =>
        refine uniqInv_replace fs link _ h hmem rfl (fun hn => hn) ?_
        intro x hx hxne hpar hname
        cases hn : updates.name with
        | some n =>
          simp only [hn]
          exact normalizeLnk_ends n
        | none =>
          simp only [hn] at hname ⊢
          exact hname ▸ h.dupLnk x hx link hmem (by rw [hid] at hxne; rw [← hid] at hxne; exact hxne) hpar hname

theorem uniqInv_reach {fs : FsState} (h : SixReach fs) : UniqInv fs := by
  induction h with
  | base => exact uniqInv_fs0
  | mkdir fs name pid now _ ih => exact uniqInv_createDirectory fs name pid now ih
  | mkfile fs name pid content mime now _ ih =>
    exact uniqInv_createFile fs name pid content mime now ih
  | mklink fs name pid tt tg now _ ih => exact uniqInv_createLink fs name pid tt tg now ih
  | rename fs entityId newName now _ ih =>
    exact uniqInv_renameEntity fs entityId newName now ih
  | relink fs linkId updates now _ ih => exact uniqInv_updateLink fs linkId updates now ih
  | move fs entityId newParentId now _ ih =>
    exact uniqInv_moveEntity fs entityId newParentId now ih

theorem sixReach_foldLinks (apps : List (String × String)) (pid : Nat) (acc : FsState)
    (h : SixReach acc) :
    SixReach (apps.foldl
      (fun acc app => (createLink acc app.1 pid .application app.2 0).2) acc) := by
  induction apps generalizing acc with
  | nil => exact h
  | cons a t ih =>
    exact ih _ (SixReach.mklink acc a.1 pid .application a.2 0 h)

/-- A freshly initialized file system is `SixReach`:
`createNewFileSystem` issues only `createDirectory`, `createLink` and
`createFile` calls from the root-only state. -/
theorem sixReach_init (apps : List (String × String)) :
    SixReach (createNewFileSystem apps) := by
  have hgetD : ∀ o : Option FsState, (∀ fs, o = some fs → SixReach fs) →
      SixReach (o.getD fs0) := by
    intro o ho
    cases o with
    | none => exact SixReach.base
    | some fs => exact ho fs rfl
  refine hgetD _ ?_
  intro fs hfs
  unfold buildDefaultTree at hfs
  cases hp1 : createDirectory fs0 "Users" 0 0 with
  | mk rUsers fsA =>
  rw [hp1] at hfs
  dsimp only at hfs
  have hA : SixReach fsA := by
    have he : fsA = (createDirectory fs0 "Users" 0 0).2 := by rw [hp1]
    rw [he]
    exact SixReach.mkdir _ _ _ _ SixReach.base
  cases h1 : rUsers.toOption with
  | none => rw [h1] at hfs; simp at hfs
  | some users =>
  rw [h1] at hfs
  simp only [Option.pure_def, Option.bind_eq_bind, Option.some_bind] at hfs
  cases hp2 : createDirectory fsA "Applications" 0 0 with
  | mk rApps fsB =>
  rw [hp2] at hfs
  dsimp only at hfs
  have hB : SixReach fsB := by
    have he : fsB = (createDirectory fsA "Applications" 0 0).2 := by rw [hp2]
    rw [he]
    exact SixReach.mkdir _ _ _ _ hA
  cases h2 : rApps.toOption with
  | none => rw [h2] at hfs; simp at hfs
  | some appsDir =>
  rw [h2] at hfs
  simp only [Option.pure_def, Option.bind_eq_bind, Option.some_bind] at hfs
  have hC : SixReach (createDirectory fsB "System" 0 0).2 :=
    SixReach.mkdir _ _ _ _ hB
  cases hp3 : createDirectory (createDirectory fsB "System" 0 0).2 "User" users.id 0 with
  | mk rUser fsD =>
  rw [hp3] at hfs
  dsimp only at hfs
  have hD : SixReach fsD := by
    have he : fsD = (createDirectory (createDirectory fsB "System" 0 0).2 "User"
        users.id 0).2 := by rw [hp3]
    rw [he]
    exact SixReach.mkdir _ _ _ _ hC
  cases h3 : rUser.toOption with
  | none => rw [h3] at hfs; simp at hfs
  | some user =>
  rw [h3] at hfs
  simp only [Option.pure_def, Option.bind_eq_bind, Option.some_bind] at hfs
  cases hp4 : createDirectory fsD "Documents" user.id 0 with
  | mk rDocs fsE =>
  rw [hp4] at hfs
  dsimp only at hfs
  have hE : SixReach fsE := by
    have he : fsE = (createDirectory fsD "Documents" user.id 0).2 := by rw [hp4]
    rw [he]
    exact SixReach.mkdir _ _ _ _ hD
  cases h4 : rDocs.toOption with
  | none => rw [h4] at hfs; simp at hfs
  | some documents =>
  rw [h4] at hfs
  simp only [Option.pure_def, Option.bind_eq_bind, Option.some_bind] at hfs
  cases hp5 : createDirectory fsE "Desktop" user.id 0 with
  | mk rDesk fsF =>
  rw [hp5] at hfs
  dsimp only at hfs
  have hF : SixReach fsF := by
    have he : fsF = (createDirectory fsE "Desktop" user.id 0).2 := by rw [hp5]
    rw [he]
    exact SixReach.mkdir _ _ _ _ hE
  cases h5 : rDesk.toOption with
  | none => rw [h5] at hfs; simp at hfs
  | some desktop =>
  rw [h5] at hfs
  simp only [Option.pure_def, Option.bind_eq_bind, Option.some_bind, Option.some_inj] at hfs
  rw [← hfs]
  exact SixReach.mkfile _ _ _ _ _ _
    (SixReach.mkfile _ _ _ _ _ _
      (SixReach.mkfile _ _ _ _ _ _
        (sixReach_foldLinks apps desktop.id _
          (sixReach_foldLinks apps appsDir.id _
            (SixReach.mkdir _ _ _ _
              (SixReach.mkdir _ _ _ _ hF))))))

/-! ### Claim theorems: sibling uniqueness -/

/-- C3 (amended): along the six name-affecting operations, any two
distinct same-parent entities sharing a name carry a `.lnk`-normalized
name (`createDirectory`, `createFile`, `renameEntity` and `moveEntity`
never create duplicates, but `createLink`/`updateLink` check the
pre-normalization name and can slip a duplicate `.lnk` name through);
and whenever an operation does detect a collision it fails with the
name-collision error and leaves the file system unchanged. -/
theorem sibling_uniqueness (fs : FsState) (h : SixReach fs) :
    (∀ e1 ∈ fs.entities, ∀ e2 ∈ fs.entities,
      e1.id ≠ e2.id → e1.parentId = e2.parentId → e1.name = e2.name →
      jsEndsWith e1.name ".lnk" = true) ∧
    (∀ name pid now parent, dbGetEntity fs pid = some parent → parent.isDir = true →
      ((dbEntitiesByParent fs (some pid)).any fun e => e.name == name) = true →
      createDirectory fs name pid now =
        (.err ("A file or directory named \"" ++ name ++ "\" already exists"), fs)) ∧
    (∀ name pid content mime now parent, dbGetEntity fs pid = some parent →
      parent.isDir = true →
      ((dbEntitiesByParent fs (some pid)).any fun e => e.name == name) = true →
      createFile fs name pid content mime now =
        (.err ("A file or directory named \"" ++ name ++ "\" already exists"), fs)) ∧
    (∀ name pid targetType target now parent, dbGetEntity fs pid = some parent →
      parent.isDir = true →
      ((dbEntitiesByParent fs (some pid)).any fun e => e.name == name) = true →
      createLink fs name pid targetType target now =
        (.err ("A file or directory named \"" ++ name ++ "\" already exists"), fs)) ∧
    (∀ entityId newName now entity, dbGetEntity fs entityId = some entity →
      ((dbEntitiesByParent fs entity.parentId).any
        fun e => e.name == newName && e.id ≠ entityId) = true →
      renameEntity fs entityId newName now =
        (.err ("A file or directory named \"" ++ newName ++ "\" already exists"), fs)) ∧
    (∀ entityId newParentId now entity newParent, dbGetEntity fs entityId = some entity →
      dbGetEntity fs newParentId = some newParent → newParent.isDir = true →
      ((dbEntitiesByParent fs (some newParentId)).any fun e => e.name == entity.name)
        = true →
      moveEntity fs entityId newParentId now =
        (.err ("A file or directory named \"" ++ entity.name ++
          "\" already exists in the destination"), fs)) := by
  refine ⟨(uniqInv_reach h).dupLnk, ?_, ?_, ?_, ?_, ?_⟩
  · intro name pid now parent hp hdir hcol
    simp only [createDirectory, hp, hdir, Bool.not_true, Bool.false_eq_true, if_false,
      hcol, if_true]
  · intro name pid content mime now parent hp hdir hcol
    simp only [createFile, hp, hdir, Bool.not_true, Bool.false_eq_true, if_false,
      hcol, if_true]
  · intro name pid targetType target now parent hp hdir hcol
    simp only [createLink, hp, hdir, Bool.not_true, Bool.false_eq_true, if_false,
      hcol, if_true]
  · intro entityId newName now entity he hcol
    simp only [renameEntity, he, hcol, if_true]
  · intro entityId newParentId now entity newParent he hp hdir hcol
    simp only [moveEntity, he, hp, hdir, Bool.not_true, Bool.false_eq_true, if_false,
      hcol, if_true]

/-- Witness for C3's amended theorem: in the reachable state holding
`/Docs`, a second `createDirectory("Docs", root)` detects the collision,
fails with the name-collision error and leaves the state unchanged. -/
theorem sibling_uniqueness_witness :
    createDirectory fsDocs "Docs" 0 0 =
      (.err ("A file or directory named \"Docs\" already exists"), fsDocs) :=
  (sibling_uniqueness fsDocs (SixReach.mkdir fs0 "Docs" 0 0 SixReach.base)).2.1
    "Docs" 0 0 rootEntity (by decide) (by decide) (by decide)

/-- C3 counterexample: starting from the initialized file system with a
file `"A.lnk"` in the root, `createLink("A", root, url, ...)` checks the
raw name `"A"`, finds no collision, and stores `"A.lnk"` — leaving two
sibling entities with the same name, which the claim forbids. -/
theorem sibling_collision_cex :
    ((createLink fsCollide "A" 0 .url "https://x" 0).1.toOption.map fun e => e.name) =
      some "A.lnk" ∧
    ((createLink fsCollide "A" 0 .url "https://x" 0).2.entities.filter
      fun e => e.name == "A.lnk" && e.parentId == some 0).length = 2 := by
  decide

/-! ### Claim theorems: recursive delete on a parent cycle -/

/-- C8 evaluation at the failing input: `moveEntity` performs no cycle
check, so moving `/A` into its own child `/A/B` succeeds and leaves
directories 20 and 21 as each other's parents; from that reachable
state, the recursive deletion of directory 20 completes under no
amount of fuel — the source's unbounded recursion never returns, so
`deleteEntity(A)` does not return success as the claim requires. -/
theorem delete_cycle_diverges :
    (moveEntity fsCyc2 20 21 0).1 = .ok () ∧
    dbGetEntity fsCyc3 20 = some cycA ∧
    dbGetEntity fsCyc3 21 = some cycB ∧
    ∀ fuel : Nat, deleteEntityFuel fuel fsCyc3 20 = none := by
  have hA : dbGetEntity fsCyc3 20 = some cycA := by decide
  have hB : dbGetEntity fsCyc3 21 = some cycB := by decide
  have hcA : dbEntitiesByParent fsCyc3 (some 20) = [cycB] := by decide
  have hcB : dbEntitiesByParent fsCyc3 (some 21) = [cycA] := by decide
  have haux : ∀ fuel : Nat,
      deleteEntityFuel fuel fsCyc3 20 = none ∧ deleteEntityFuel fuel fsCyc3 21 = none := by
    intro fuel
    induction fuel with
    | zero => exact ⟨rfl, rfl⟩
    | succ n ih =>
      constructor
      · simp only [deleteEntityFuel, hA]
        rw [show cycA.isDir = true from rfl, if_pos rfl, hcA]
        rw [List.foldlM_cons]
        rw [show cycB.id = 21 from rfl, ih.2]
        rfl
      · simp only [deleteEntityFuel, hB]
        rw [show cycB.isDir = true from rfl, if_pos rfl, hcB]
        rw [List.foldlM_cons]
        rw [show cycA.id = 20 from rfl, ih.1]
        rfl
  exact ⟨by decide, hA, hB, fun fuel => (haux fuel).1⟩

/-! ### File system: path round-trip machinery -/

theorem pathOf_snoc (ns : List String) (n : String) :
    pathOf (ns ++ [n]) = (if pathOf ns = "/" then "" else pathOf ns) ++ "/" ++ n := by
  unfold pathOf
  rw [List.foldl_append]
  rfl

theorem goodChain_names {fs : FsState} {e : Entity} {ns : List String}
    (h : GoodChain fs e ns) : ∀ n ∈ ns, n ≠ "" ∧ '/' ∉ n.data := by
  induction h with
  | root r hr hp hd => intro n hn; exact absurd hn (List.not_mem_nil n)
  | step p e' ns' hchain hpdir hent hpar hne hslash hfind ih =>
    intro n hn
    rcases List.mem_append.mp hn with hn | hn
    · exact ih n hn
    · rw [List.mem_singleton.mp hn]
      exact ⟨hne, hslash⟩

theorem intercalate_snoc (l : List (List Char)) (d : List Char) (hl : l ≠ []) :
    List.intercalate ['/'] (l ++ [d]) = List.intercalate ['/'] l ++ '/' :: d := by
  induction l with
  | nil => exact absurd rfl hl
  | cons a t ih =>
    cases t with
    | nil => simp [List.intercalate, List.intersperse]
    | cons b t2 =>
      have ht : b :: t2 ≠ [] := by simp
      have ih2 := ih ht
      simp only [List.cons_append, List.intercalate, List.intersperse_cons_cons,
        List.flatten_cons] at ih2 ⊢
      rw [ih2]
      simp [List.append_assoc]

theorem intercalate_cons_ex (a : List Char) (rest : List (List Char)) :
    ∃ suf, List.intercalate ['/'] (a :: rest) = a ++ suf := by
  cases rest with
  | nil => exact ⟨[], by simp [List.intercalate, List.intersperse]⟩
  | cons b r2 =>
    refine ⟨'/' :: List.intercalate ['/'] (b :: r2), ?_⟩
    simp [List.intercalate, List.intersperse_cons_cons]

theorem pathOf_data (ns : List String) (hne : ∀ n ∈ ns, n ≠ "") :
    (pathOf ns).data = '/' :: List.intercalate ['/'] (ns.map String.data) := by
  induction ns using List.reverseRecOn with
  | nil => rfl
  | append_singleton t n ih =>
    rw [pathOf_snoc]
    by_cases ht0 : t = []
    · rw [ht0, if_pos (by rfl)]
      simp [String.data_append, List.intercalate, List.intersperse]
    · have hmem : ∀ m ∈ t, m ≠ "" := fun m hm => hne m (List.mem_append_left _ hm)
      have hdata := ih hmem
      obtain ⟨a, t2, hat⟩ := List.exists_cons_of_ne_nil ht0
      have hnz : pathOf t ≠ "/" := by
        intro hcontra
        have hd := congrArg String.data hcontra
        rw [hdata] at hd
        have h0 : ("/" : String).data = ['/'] := rfl
        rw [h0] at hd
        have hL : List.intercalate ['/'] (t.map String.data) = [] :=
          (List.cons.injEq _ _ _ _ ▸ hd).2
        rw [hat] at hL
        simp only [List.map_cons] at hL
        obtain ⟨suf, hsuf⟩ := intercalate_cons_ex a.data (t2.map String.data)
        rw [hsuf] at hL
        rcases List.append_eq_nil.mp hL with ⟨h1, -⟩
        have hane : a ≠ "" :=
          hne a (List.mem_append_left _ (hat ▸ List.mem_cons_self a t2))
        exact hane (String.ext (by simp [h1]))
      rw [if_neg hnz]
      rw [String.data_append, String.data_append, hdata]
      have hmape : (t ++ [n]).map String.data = t.map String.data ++ [n.data] := by simp
      rw [hmape, intercalate_snoc _ _ (by simpa using ht0)]
      simp [String.data_append]

theorem dropWhile_slash_head (c : Char) (cs : List Char) (hc : ¬c = '/') :
    (c :: cs).dropWhile (fun x => x == '/') = c :: cs := by
  rw [List.dropWhile_cons, if_neg (by simp [hc])]

theorem split_strip_pathOf (ns : List String) (h : ∀ n ∈ ns, n ≠ "" ∧ '/' ∉ n.data)
    (hne : ns ≠ []) : jsSplit (stripSlashes (pathOf ns)) = ns := by
  have hne' : ∀ n ∈ ns, n ≠ "" := fun n hn => (h n hn).1
  have hdata := pathOf_data ns hne'
  have hL : ∀ d ∈ ns.map String.data, '/' ∉ d := by
    intro d hd
    obtain ⟨n, hn, rfl⟩ := List.mem_map.mp hd
    exact (h n hn).2
  have hmapne : ns.map String.data ≠ [] := by simpa using hne
  -- Step A: the leading slash is stripped and nothing more
  obtain ⟨a, t2, hat⟩ := List.exists_cons_of_ne_nil hne
  have hstepA : (pathOf ns).data.dropWhile (fun x => x == '/') =
      List.intercalate ['/'] (ns.map String.data) := by
    rw [hdata, List.dropWhile_cons, if_pos (by simp)]
    obtain ⟨suf, hsuf⟩ := intercalate_cons_ex a.data (t2.map String.data)
    have hmap : ns.map String.data = a.data :: t2.map String.data := by rw [hat]; rfl
    rw [hmap, hsuf]
    have hane : a ≠ "" := hne' a (hat ▸ List.mem_cons_self a t2)
    obtain ⟨c, cs, hacs⟩ : ∃ c cs, a.data = c :: cs := by
      cases hd : a.data with
      | nil => exact absurd (String.ext hd) hane
      | cons c cs => exact ⟨c, cs, rfl⟩
    have hcmem : c ∈ a.data := by rw [hacs]; exact List.mem_cons_self c cs
    have hcne : ¬c = '/' := by
      intro hcon
      exact (h a (hat ▸ List.mem_cons_self a t2)).2 (hcon ▸ hcmem)
    rw [hacs, List.cons_append]
    exact dropWhile_slash_head c (cs ++ suf) hcne
  -- Step B: no trailing slash to strip
  have hstepB : (List.intercalate ['/'] (ns.map String.data)).reverse.dropWhile
      (fun x => x == '/') = (List.intercalate ['/'] (ns.map String.data)).reverse := by
    obtain ⟨t, m, hsnoc0⟩ := (List.eq_nil_or_concat ns).resolve_left hne
    have hsnoc : ns = t ++ [m] := by rw [hsnoc0, List.concat_eq_append]
    have hmne : m ≠ "" := hne' m (hsnoc ▸ List.mem_append_right _ (List.mem_singleton_self m))
    obtain ⟨c, cs, hmcs⟩ : ∃ c cs, m.data.reverse = c :: cs := by
      cases hd : m.data.reverse with
      | nil =>
        have : m.data = [] := by simpa using congrArg List.reverse hd
        exact absurd (String.ext this) hmne
      | cons c cs => exact ⟨c, cs, rfl⟩
    have hcmem : c ∈ m.data := by
      rw [← List.mem_reverse, hmcs]
      exact List.mem_cons_self c cs
    have hcne : ¬c = '/' := by
      intro hcon
      exact (h m (hsnoc ▸ List.mem_append_right _ (List.mem_singleton_self m))).2
        (hcon ▸ hcmem)
    by_cases ht0 : t = []
    · rw [hsnoc, ht0]
      have : List.intercalate ['/'] (([] ++ [m]).map String.data) = m.data := by
        simp [List.intercalate, List.intersperse]
      rw [this, hmcs]
      exact dropWhile_slash_head c cs hcne
    · rw [hsnoc]
      have hmap2 : ((t ++ [m]).map String.data) = t.map String.data ++ [m.data] := by simp
      rw [hmap2, intercalate_snoc _ _ (by simpa using ht0)]
      rw [List.reverse_append, List.reverse_cons, hmcs]
      simp only [List.cons_append]
      exact dropWhile_slash_head c _ hcne
  -- Assemble
  unfold jsSplit stripSlashes
  rw [hstepA, hstepB, List.reverse_reverse]
  rw [show List.intercalate ['/'] (ns.map String.data) = ['/'].intercalate (ns.map String.data)
    from rfl]
  rw [List.splitOn_intercalate (ns.map String.data) '/' hL hmapne]
  rw [List.map_map]
  have heta : ((fun (l : List Char) => (⟨l⟩ : String)) ∘ String.data) = id := rfl
  rw [heta, List.map_id]

theorem walkPath_chain {fs : FsState} {e : Entity} {ns : List String}
    (h : GoodChain fs e ns) :
    e.data = .directory → ∀ l2, walkPath fs fs.rootId (ns ++ l2) = walkPath fs e.id l2 := by
  induction h with
  | root r hr hp hd =>
    intro _ l2
    have hid : r.id = fs.rootId := (dbGetEntity_mem_id fs fs.rootId r hr).2
    rw [List.nil_append, hid]
  | step p e' ns' hchain hpdir hent hpar hne hslash hfind ih =>
    intro hdir l2
    rw [List.append_assoc, ih hpdir ([e'.name] ++ l2)]
    show walkPath fs p.id (e'.name :: l2) = walkPath fs e'.id l2
    rw [walkPath, if_neg hne, hfind]
    have hd : e'.isDir = true := by
      unfold Entity.isDir
      rw [hdir]
    dsimp only
    rw [hd, if_pos rfl]

theorem getPathFuel_chain {fs : FsState} {e : Entity} {ns : List String}
    (h : GoodChain fs e ns) :
    ∀ fuel, ns.length < fuel → getPathFuel fs fuel e.id = pathOf ns := by
  induction h with
  | root r hr hp hd =>
    intro fuel hf
    obtain ⟨f, rfl⟩ := Nat.exists_eq_succ_of_ne_zero (Nat.pos_iff_ne_zero.mp hf)
    have hid : r.id = fs.rootId := (dbGetEntity_mem_id fs fs.rootId r hr).2
    rw [getPathFuel, hid, hr]
    dsimp only
    rw [hp]
    rfl
  | step p e' ns' hchain hpdir hent hpar hne hslash hfind ih =>
    intro fuel hf
    have hf0 : fuel ≠ 0 := Nat.pos_iff_ne_zero.mp (Nat.lt_of_le_of_lt (Nat.zero_le _) hf)
    obtain ⟨f, rfl⟩ := Nat.exists_eq_succ_of_ne_zero hf0
    have hlt : ns'.length < f := by
      have : ns'.length + 1 < f + 1 := by simpa using hf
      exact Nat.lt_of_succ_lt_succ this
    rw [getPathFuel, hent]
    dsimp only
    rw [hpar]
    dsimp only
    rw [ih f hlt, pathOf_snoc]

theorem pathOf_ne_root (ns : List String) (hne : ∀ n ∈ ns, n ≠ "") (h0 : ns ≠ []) :
    pathOf ns ≠ "/" := by
  intro hcontra
  have hd := congrArg String.data hcontra
  rw [pathOf_data ns hne] at hd
  have h1 : ("/" : String).data = ['/'] := rfl
  rw [h1] at hd
  have hL : List.intercalate ['/'] (ns.map String.data) = [] :=
    (List.cons.injEq _ _ _ _ ▸ hd).2
  obtain ⟨a, t2, hat⟩ := List.exists_cons_of_ne_nil h0
  rw [hat] at hL
  simp only [List.map_cons] at hL
  obtain ⟨suf, hsuf⟩ := intercalate_cons_ex a.data (t2.map String.data)
  rw [hsuf] at hL
  rcases List.append_eq_nil.mp hL with ⟨h1', -⟩
  have hane : a ≠ "" := hne a (hat ▸ List.mem_cons_self a t2)
  exact hane (String.ext (by simp [h1']))

/-- C5 (corrected): the path round-trip `getEntityByPath (getPath e.id) = e`
holds for every entity that sits on a good chain from the root: each
chain parent is a directory, each chain name is nonempty and
slash-free, and each chain entity is the sibling its own name resolves
to (`find?` by exact name).  Without those conditions the round trip
fails: the code never validates names, so a file named `""` gets the
path `"/"`, which resolves back to the root instead. -/
theorem path_round_trip (fs : FsState) (e : Entity) (ns : List String)
    (h : GoodChain fs e ns) (hlen : ns.length ≤ fs.entities.length) :
    getEntityByPath fs (getPath fs e.id) = some e := by
  have hgp : getPath fs e.id = pathOf ns :=
    getPathFuel_chain h (fs.entities.length + 1) (Nat.lt_succ_of_le hlen)
  rw [hgp]
  cases h with
  | root r hr hp hd =>
    unfold getEntityByPath
    rw [if_pos (show pathOf [] = "/" from rfl)]
    exact hr
  | step p e' ns' hchain hpdir hent hpar hne hslash hfind =>
    have hgc : GoodChain fs e (ns' ++ [e.name]) :=
      GoodChain.step p e ns' hchain hpdir hent hpar hne hslash hfind
    have hnames := goodChain_names hgc
    have hnz : pathOf (ns' ++ [e.name]) ≠ "/" :=
      pathOf_ne_root _ (fun n hn => (hnames n hn).1) (by simp)
    unfold getEntityByPath
    rw [if_neg hnz, split_strip_pathOf _ hnames (by simp)]
    rw [walkPath_chain hchain hpdir [e.name]]
    rw [walkPath, if_neg hne, hfind]
    dsimp only
    by_cases hdir : e.isDir = true
    · rw [hdir, if_pos rfl]
      exact hent
    · rw [Bool.not_eq_true] at hdir
      rw [hdir]
      rw [if_neg (by simp), if_neg (by simp)]

/-- C5 witness: `fsDocs` holds the root and the directory `Docs`; the
chain side conditions hold concretely and the round trip lands back on
the `Docs` entity. -/
theorem path_round_trip_witness :
    getEntityByPath fsDocs (getPath fsDocs docsEntity.id) = some docsEntity :=
  path_round_trip fsDocs docsEntity ["Docs"]
    (GoodChain.step rootEntity docsEntity [] (GoodChain.root rootEntity (by decide) (by decide)
      (by decide)) (by decide) (by decide) (by decide) (by decide) (by decide) (by decide))
    (by decide)

/-- C5 counterexample: `createFile` accepts the empty name, the new file
(id 20, a child of the root) gets the path `"/"`, and resolving that
path returns the root (id 0), not the file. -/
theorem path_empty_name_cex :
    (dbGetEntity fsEmptyName 20).map Entity.parentId = some (some 0) ∧
    getPath fsEmptyName 20 = "/" ∧
    (getEntityByPath fsEmptyName (getPath fsEmptyName 20)).map Entity.id = some 0 := by
  refine ⟨?_, ?_, ?_⟩ <;> decide
